import Mathlib

/-!
Verification development for the ikap2 bank-statement analysis backend.

The JavaScript source (src/index.js, src/pdfConverter.js) is shallowly
embedded: JS strings become `String`/`List Char`, JS objects holding
extracted transactions become insertion-ordered association lists,
`Date` instants become milliseconds-since-epoch integers (`Int`), and JS
numbers in the analysis pipeline become rationals (`ℚ`).  The process
time zone is assumed to be UTC (the production container sets no TZ),
so local-time `Date` accessors coincide with the UTC ones.
-/

namespace Ikap

/-! ## Character and string primitives (JS semantics) -/

/-- Characters matched by the JavaScript regexp class `\s`
(whitespace + line terminators, ECMA-262). -/
def jsIsSpace (c : Char) : Bool :=
  let n := c.toNat
  n = 9 ∨ n = 10 ∨ n = 11 ∨ n = 12 ∨ n = 13 ∨ n = 32 ∨ n = 160 ∨ n = 5760 ∨
  (8192 ≤ n ∧ n ≤ 8202) ∨ n = 8232 ∨ n = 8233 ∨ n = 8239 ∨ n = 8287 ∨
  n = 12288 ∨ n = 65279

/-- The apostrophe-like characters removed by `sanitizeNumberString`:
`'` (U+0027), `’` (U+2019), U+0060 (grave accent) and `´` (U+00B4). -/
def isAposChar (c : Char) : Bool :=
  c.toNat = 39 ∨ c.toNat = 8217 ∨ c.toNat = 96 ∨ c.toNat = 180

/-- The regexp class `[0-9]` (codepoints 48-57). -/
def isDigitChar (c : Char) : Bool := 48 ≤ c.toNat ∧ c.toNat ≤ 57

/-- `String.prototype.toLowerCase` restricted to the alphabets the
classifier keywords use: ASCII letters and the Cyrillic block А..Я, Ё. -/
def jsToLowerChar (c : Char) : Char :=
  let n := c.toNat
  if 65 ≤ n ∧ n ≤ 90 then Char.ofNat (n + 32)
  else if 0x410 ≤ n ∧ n ≤ 0x42F then Char.ofNat (n + 32)
  else if n = 0x401 then Char.ofNat 0x451
  else c

def jsToLower (s : String) : String := String.mk (s.data.map jsToLowerChar)

/-- Does `pat` occur at the head of `hay`? -/
def startsWithChars : List Char → List Char → Bool
  | _, [] => true
  | [], _ :: _ => false
  | c :: cs, d :: ds => c = d && startsWithChars cs ds

/-- Substring containment, as in `String.prototype.includes`. -/
def containsSub (hay pat : List Char) : Bool :=
  if startsWithChars hay pat then true
  else
    match hay with
    | [] => false
    | _ :: t => containsSub t pat

/-- `a.includes(b)` on strings. -/
def strContains (hay pat : String) : Bool := containsSub hay.data pat.data

/-- Worker of `collapseSpaces`: `inRun` records whether the previous
character belonged to a whitespace run already replaced by `' '`. -/
def collapseSpacesAux : Bool → List Char → List Char
  | _, [] => []
  | inRun, c :: rest =>
    if jsIsSpace c then
      if inRun then collapseSpacesAux true rest
      else ' ' :: collapseSpacesAux true rest
    else c :: collapseSpacesAux false rest

/-- `replace(/\s+/g, ' ')`: each maximal run of JS whitespace becomes a
single ASCII space. -/
def collapseSpaces (l : List Char) : List Char := collapseSpacesAux false l

/-- `String.prototype.trim` (removes `\s` characters at both ends). -/
def jsTrim (l : List Char) : List Char :=
  ((l.dropWhile jsIsSpace).reverse.dropWhile jsIsSpace).reverse

/-- src/index.js `normalizeWhitespace` (collapse interior whitespace, trim). -/
def normalizeWhitespace (s : String) : String :=
  String.mk (jsTrim (collapseSpaces s.data))

/-- `String.prototype.lastIndexOf` for a single character; `-1` when absent. -/
def lastIdx : List Char → Char → Int
  | [], _ => -1
  | x :: xs, c =>
    let r := lastIdx xs c
    if r ≥ 0 then r + 1 else if x = c then 0 else -1

/-- `String.prototype.replace(c, d)` with a non-regex single-character
pattern: replaces only the first occurrence. -/
def replFirst : List Char → Char → Char → List Char
  | [], _, _ => []
  | x :: xs, c, d => if x = c then d :: xs else x :: replFirst xs c d

/-! ## Transaction records

The PDF extractor emits transactions as JSON objects with free-form keys.
A record is embedded as an insertion-ordered association list; JS object
keys are unique, lookup returns the first binding. -/

inductive JsVal where
  | str (s : String)
  | num (q : ℚ)
  | bool (b : Bool)
deriving DecidableEq, Repr

abbrev Transaction := List (String × JsVal)

def objGet? (t : Transaction) (k : String) : Option JsVal :=
  (t.find? (fun p => p.1 = k)).map (·.2)

/-- JS object spread `{...t, k: v}`: replaces the binding in place when the
key exists, otherwise appends it. -/
def objSet (t : Transaction) (k : String) (v : JsVal) : Transaction :=
  if t.any (fun p => p.1 = k) then
    t.map (fun p => if p.1 = k then (k, v) else p)
  else t ++ [(k, v)]

/-- Fuelled worker for `natDigits` (the fuel bounds the digit count, and
any fuel `≥ n` suffices). -/
def natDigitsAux : ℕ → ℕ → List Char → List Char
  | 0, _, acc => acc
  | _ + 1, 0, acc => acc
  | fuel + 1, n, acc =>
    natDigitsAux fuel (n / 10) (Char.ofNat (48 + n % 10) :: acc)

/-- Decimal digits of a natural number. -/
def natDigits (n : ℕ) : List Char :=
  if n = 0 then ['0'] else natDigitsAux n n []

/-- Smallest exponent `k ≤ 17` with `q * 10^k` integral, if any. -/
def decExp (q : ℚ) : Option ℕ :=
  (List.range 18).find? (fun k => (q * 10 ^ k).den = 1)

/-- `Number.prototype.toString` for the finite-decimal rationals that occur
in extractor JSON (integer or short decimal fraction).  Rationals without a
short finite decimal expansion cannot arise from JSON number literals of
the pipeline and map to the empty string. -/
def ratToString (q : ℚ) : String :=
  match decExp q with
  | none => ""
  | some 0 => String.mk ((if q < 0 then ['-'] else []) ++ natDigits q.num.natAbs)
  | some (k + 1) =>
    let n := (q * 10 ^ (k + 1)).num.natAbs
    let ip := natDigits (n / 10 ^ (k + 1))
    let fpRaw := natDigits (n % 10 ^ (k + 1))
    let fp := List.replicate (k + 1 - fpRaw.length) '0' ++ fpRaw
    String.mk ((if q < 0 then ['-'] else []) ++ ip ++ '.' :: fp)

/-- src/index.js `getFieldValue`: first key bound to a string or number
(numbers via `toString`); otherwise the empty string. -/
def getFieldValue (t : Transaction) (keys : List String) : String :=
  match keys with
  | [] => ""
  | k :: rest =>
    match objGet? t k with
    | some (.str s) => s
    | some (.num q) => ratToString q
    | _ => getFieldValue t rest

def purposeKeys : List String :=
  ["Назначение платежа", "назначение платежа", "Назначение", "назначение",
   "Purpose", "purpose", "Комментарий", "comment", "description",
   "Description", "Details"]

def senderKeys : List String :=
  ["Отправитель", "отправитель", "Плательщик", "плательщик", "Контрагент",
   "counterparty", "sender", "payer"]

def correspondentKeys : List String :=
  ["Корреспондент", "корреспондент", "Correspondent", "correspondent",
   "Получатель", "получатель", "Beneficiary", "beneficiary", "counterparty"]

def amountKeys : List String :=
  ["Кредит", "credit", "Сумма", "сумма", "Amount", "amount", "value"]

def extractPurpose (t : Transaction) : String :=
  normalizeWhitespace (getFieldValue t purposeKeys)

def extractSender (t : Transaction) : String :=
  normalizeWhitespace (getFieldValue t senderKeys)

def extractCorrespondent (t : Transaction) : String :=
  normalizeWhitespace (getFieldValue t correspondentKeys)

def extractAmountRaw (t : Transaction) : String :=
  getFieldValue t amountKeys

/-! ## Amount parsing (src/index.js `sanitizeNumberString`, `parseAmountNumber`) -/

/-- Characters kept by the `replace(/[^0-9,.\-]/g, '')` step. -/
def numericChar (c : Char) : Bool :=
  isDigitChar c ∨ c = ',' ∨ c = '.' ∨ c = '-'

/-- The `cleaned` stage: strip U+00A0, U+202F, every `\s` run, the
apostrophe family, then trim (all of which amounts to a filter, the
explicit trim being a no-op once every whitespace character is gone). -/
def sanitizeCleaned (s : List Char) : List Char :=
  jsTrim (s.filter (fun c => ¬(jsIsSpace c ∨ isAposChar c)))

/-- Core of src/index.js `sanitizeNumberString` after sign detection:
`negative` is the sign accumulated so far, `numeric` the filtered digits
and separators (with `-` already removed). -/
def sanitizeCore (negative : Bool) (numeric : List Char) : List Char :=
  let sign : List Char := if negative then ['-'] else []
  let hasComma := numeric.contains ','
  let hasDot := numeric.contains '.'
  if hasComma ∧ hasDot then
    if lastIdx numeric ',' > lastIdx numeric '.' then
      sign ++ replFirst (numeric.filter (fun c => c ≠ '.')) ',' '.'
    else
      sign ++ numeric.filter (fun c => c ≠ ',')
  else
    let sepIdx := max (lastIdx numeric ',') (lastIdx numeric '.')
    if sepIdx = -1 then sign ++ numeric
    else
      let si := sepIdx.toNat
      let sep := (numeric.get? si).getD ' '
      let fractionalLength := numeric.length - si - 1
      let separatorsCount := numeric.count sep
      let treatAsDecimal :=
        fractionalLength > 0 ∧ fractionalLength ≤ 2 ∧
        (separatorsCount = 1 ∨ sep = ',')
      if treatAsDecimal then
        let integerPartRaw := (numeric.take si).filter isDigitChar
        let integerPart := if integerPartRaw = [] then ['0'] else integerPartRaw
        let fractionalPart := (numeric.drop (si + 1)).filter isDigitChar
        if fractionalPart = [] then sign ++ integerPart
        else sign ++ integerPart ++ '.' :: fractionalPart
      else
        sign ++ numeric.filter (fun c => c ≠ sep)

/-- The leading-sign detection (`startsWith('-')` / `startsWith('+')` with
`slice(1)`). -/
def splitSign (l : List Char) : Bool × List Char :=
  match l with
  | [] => (false, [])
  | c :: rest =>
    if c = '-' then (true, rest)
    else if c = '+' then (false, rest)
    else (false, c :: rest)

/-- The second `startsWith('-')` check on the filtered numeric string;
it can only switch the sign on, never off. -/
def splitDash (negative : Bool) (l : List Char) : Bool × List Char :=
  match l with
  | [] => (negative, [])
  | c :: rest => if c = '-' then (true, rest) else (negative, c :: rest)

/-- src/index.js `sanitizeNumberString` on the character list of the input
string; returns the canonicalised numeric string (`[]` for the empty
result). -/
def sanitizeNumberString (s : List Char) : List Char :=
  let cleaned := sanitizeCleaned s
  if cleaned = [] then []
  else
    let sg := splitSign cleaned
    let numeric₀ := sg.2.filter numericChar
    if numeric₀ = [] then []
    else
      let sg₁ := splitDash sg.1 numeric₀
      sanitizeCore sg₁.1 (sg₁.2.filter (fun c => c ≠ '-'))

/-- Numeric value of a list of decimal digits (most significant first). -/
def digitsVal (l : List Char) : ℚ :=
  l.foldl (fun acc c => acc * 10 + ((c.toNat - 48 : ℕ) : ℚ)) 0

/-- Digits-and-dot body of the `Number` model, after the sign has been
split off. -/
def jsNumBody (neg : Bool) (l₁ : List Char) : Option ℚ :=
  let sgn : ℚ → ℚ := fun q => if neg then -q else q
  let ip := l₁.takeWhile isDigitChar
  let rest := l₁.dropWhile isDigitChar
  if rest = [] then (if ip = [] then none else some (sgn (digitsVal ip)))
  else if rest.head? = some '.' then
    let rest2 := rest.tail
    let fp := rest2.takeWhile isDigitChar
    if rest2.dropWhile isDigitChar ≠ [] then none
    else if ip = [] ∧ fp = [] then none
    else some (sgn (digitsVal ip + digitsVal fp / 10 ^ fp.length))
  else none

/-- `Number(s)` on the strings `sanitizeNumberString` can produce:
an optional leading `-`, digits, an optional `.` and further digits.
`none` models `NaN`. -/
def jsStringToNumber (l : List Char) : Option ℚ :=
  match l with
  | [] => jsNumBody false []
  | c :: rest =>
    if c = '-' then jsNumBody true rest else jsNumBody false (c :: rest)

/-- src/index.js `parseAmountNumber` on a string input: sanitize, then
`Number`, with 0 for the empty or non-finite result. -/
def parseAmountNumber (s : String) : ℚ :=
  let sanitized := sanitizeNumberString s.data
  if sanitized = [] then 0
  else
    match jsStringToNumber sanitized with
    | some q => q
    | none => 0

/-- Optional leading sign of an amount string: `-`, `+`, or nothing. -/
def signPrefix (sgn plus : Bool) : List Char :=
  if sgn then ['-'] else if plus then ['+'] else []

/-- Apply a detected negative sign to a parsed magnitude. -/
def signVal (sgn : Bool) (q : ℚ) : ℚ := if sgn then -q else q

/-- Characters an amount body may contain: digits and the two separator
characters. -/
def NumBody (l : List Char) : Prop :=
  ∀ c ∈ l, isDigitChar c = true ∨ c = ',' ∨ c = '.'

/-! ## JS `Date` model

A `Date` instant is its millisecond timestamp (`Int`).  Civil-calendar
conversions follow the proleptic Gregorian calendar (Howard Hinnant's
`days_from_civil` / `civil_from_days`), which is exactly the ECMA-262
`MakeDay`/`YearFromTime` arithmetic. -/

def msPerDay : Int := 86400000

/-- Days since 1970-01-01 of the civil date `y-m-d` (`m` is 1-based). -/
def daysFromCivil (y m d : Int) : Int :=
  let y' := if m ≤ 2 then y - 1 else y
  let era := y'.fdiv 400
  let yoe := y' - era * 400
  let mp := if m > 2 then m - 3 else m + 9
  let doy := (153 * mp + 2).fdiv 5 + d - 1
  let doe := yoe * 365 + yoe.fdiv 4 - yoe.fdiv 100 + doy
  era * 146097 + doe - 719468

/-- Civil date `(y, m, d)` (`m` 1-based) of a day count since 1970-01-01. -/
def civilFromDays (z : Int) : Int × Int × Int :=
  let z' := z + 719468
  let era := z'.fdiv 146097
  let doe := z' - era * 146097
  let yoe := (doe - doe.fdiv 1460 + doe.fdiv 36524 - doe.fdiv 146096).fdiv 365
  let y := yoe + era * 400
  let doy := doe - (365 * yoe + yoe.fdiv 4 - yoe.fdiv 100)
  let mp := (5 * doy + 2).fdiv 153
  let d := doy - (153 * mp + 2).fdiv 5 + 1
  let m := if mp < 10 then mp + 3 else mp - 9
  (if m ≤ 2 then y + 1 else y, m, d)

def epochDay (ts : Int) : Int := ts.fdiv msPerDay

def msOfDay (ts : Int) : Int := ts.emod msPerDay

def getUTCFullYear (ts : Int) : Int := (civilFromDays (epochDay ts)).1

/-- `getUTCMonth` (0-based month). -/
def getUTCMonth0 (ts : Int) : Int := (civilFromDays (epochDay ts)).2.1 - 1

/-- `getUTCDate` (1-based day of month). -/
def getUTCDayOfMonth (ts : Int) : Int := (civilFromDays (epochDay ts)).2.2

/-- `Date.UTC(y, m0, d, …)` with a 0-based month `m0` and a time-of-day in
milliseconds; month and day overflow normalise exactly as `MakeDay` does. -/
def jsDateUTC (y m0 d ms : Int) : Int :=
  daysFromCivil (y + m0.fdiv 12) (m0.emod 12 + 1) 1 * msPerDay
    + (d - 1) * msPerDay + ms

/-- `setUTCDate(v)`: keeps year, month and time-of-day. -/
def jsSetUTCDate (ts v : Int) : Int :=
  ts + (v - getUTCDayOfMonth ts) * msPerDay

/-- `setUTCFullYear(y)`: keeps month, day-of-month and time-of-day. -/
def jsSetUTCFullYear (ts y : Int) : Int :=
  jsDateUTC y (getUTCMonth0 ts) (getUTCDayOfMonth ts) (msOfDay ts)

/-- `setUTCMonth(v)`: keeps day-of-month and time-of-day; out-of-range
months roll the year. -/
def jsSetUTCMonth (ts v : Int) : Int :=
  jsDateUTC (getUTCFullYear ts) v (getUTCDayOfMonth ts) (msOfDay ts)

def isLeapYear (y : Int) : Bool := (y % 4 = 0 ∧ y % 100 ≠ 0) ∨ y % 400 = 0

def daysInMonth (y : Int) (m : ℕ) : ℕ :=
  if m = 2 then (if isLeapYear y then 29 else 28)
  else if m = 4 ∨ m = 6 ∨ m = 9 ∨ m = 11 then 30
  else 31

/-! ## Date-string parsing (src/index.js `tryParseDate`) -/

def natOfDigits (l : List Char) : ℕ :=
  l.foldl (fun a c => a * 10 + (c.toNat - 48)) 0

def readFixedDigits (n : ℕ) (l : List Char) : Option (ℕ × List Char) :=
  let ds := l.take n
  if ds.length = n ∧ ds.all isDigitChar then some (natOfDigits ds, l.drop n)
  else none

/-- The `THH:mm[:ss[.fff]][Z|±HH:mm]` tail of an ISO date-time string;
returns the time-of-day in milliseconds and the zone offset to subtract.
Under the UTC-process assumption a missing offset equals `Z`. -/
def parseIsoTimeTail (l : List Char) : Option (Int × Int) :=
  match l with
  | 'T' :: r => do
    let (hh, r) ← readFixedDigits 2 r
    match r with
    | ':' :: r => do
      let (mi, r) ← readFixedDigits 2 r
      let (ss, ms, r) ←
        (match r with
        | ':' :: r2 =>
          match readFixedDigits 2 r2 with
          | none => none
          | some (s, r3) =>
            match r3 with
            | '.' :: r4 =>
              let ds := r4.takeWhile isDigitChar
              if 1 ≤ ds.length ∧ ds.length ≤ 3 then
                some (s, natOfDigits ds * 10 ^ (3 - ds.length),
                  r4.dropWhile isDigitChar)
              else none
            | _ => some (s, 0, r3)
        | _ => some (0, 0, r) : Option (ℕ × ℕ × List Char))
      let (offs, r) ←
        (match r with
        | [] => some ((0 : Int), ([] : List Char))
        | 'Z' :: r2 => some (0, r2)
        | '+' :: r2 => do
          let (oh, r3) ← readFixedDigits 2 r2
          match r3 with
          | ':' :: r4 => do
            let (om, r5) ← readFixedDigits 2 r4
            some (((oh * 3600 + om * 60) * 1000 : ℕ), r5)
          | _ => none
        | '-' :: r2 => do
          let (oh, r3) ← readFixedDigits 2 r2
          match r3 with
          | ':' :: r4 => do
            let (om, r5) ← readFixedDigits 2 r4
            some (-(((oh * 3600 + om * 60) * 1000 : ℕ) : Int), r5)
          | _ => none
        | _ => none : Option (Int × List Char))
      if r = [] ∧ hh ≤ 23 ∧ mi ≤ 59 ∧ ss ≤ 59 then
        some ((((hh * 3600 + mi * 60 + ss) * 1000 + ms : ℕ) : Int), offs)
      else none
    | _ => none
  | _ => none

/-- `Date.parse` for the ECMA-262 Date Time String Format
(`YYYY[-MM[-DD]][THH:mm[:ss[.fff]][Z|±HH:mm]]`); engine-specific legacy
formats parse to `NaN` here and fall through to the hand-written
patterns below, as they do in the source for the formats it targets. -/
def jsDateParse (l : List Char) : Option Int := do
  let (y, r1) ← readFixedDigits 4 l
  let (m, d, rest) ←
    (match r1 with
    | '-' :: r2 =>
      match readFixedDigits 2 r2 with
      | none => none
      | some (m, r3) =>
        match r3 with
        | '-' :: r4 =>
          match readFixedDigits 2 r4 with
          | none => none
          | some (d, r5) => some (m, d, r5)
        | _ => some (m, 1, r3)
    | _ => some (1, 1, r1) : Option (ℕ × ℕ × List Char))
  if ¬(1 ≤ m ∧ m ≤ 12 ∧ 1 ≤ d ∧ d ≤ daysInMonth y m) then none
  else
    let base := daysFromCivil y m d * msPerDay
    match rest with
    | [] => some base
    | _ => do
      let (ms, offs) ← parseIsoTimeTail rest
      some (base + ms - offs)

/-- Two-digit years: `> 70 → 1900s`, else `2000s`; longer years verbatim. -/
def yearFromYY (yy : List Char) : Int :=
  if yy.length = 2 then
    (natOfDigits yy : Int) + (if natOfDigits yy > 70 then 1900 else 2000)
  else (natOfDigits yy : Int)

/-- `^\.(\d{1,2})\.(\d{2,4})$` — incomplete `.mm.yyyy` dates. -/
def matchIncompleteDot (l : List Char) : Option (ℕ × List Char) :=
  match l with
  | '.' :: r =>
    let mm := r.takeWhile isDigitChar
    (match r.dropWhile isDigitChar with
    | '.' :: r2 =>
      let yy := r2.takeWhile isDigitChar
      if 1 ≤ mm.length ∧ mm.length ≤ 2 ∧ 2 ≤ yy.length ∧ yy.length ≤ 4 ∧
          r2.dropWhile isDigitChar = [] then
        some (natOfDigits mm, yy)
      else none
    | _ => none)
  | _ => none

def isSepChar (c : Char) : Bool := c = '.' ∨ c = '/' ∨ c = '-'

structure DotParts where
  n1 : ℕ
  n2 : ℕ
  yy : List Char
  rest : List Char
deriving Repr

/-- Shared anchored prefix of the `dotTimeMatch` and `dotMatch` regexes:
one-or-two digits, a dot/slash/dash separator, one-or-two digits, a
separator, and a 2-4 digit year; `rest` is what follows the year. -/
def matchDotLead (l : List Char) : Option DotParts :=
  let d1 := l.takeWhile isDigitChar
  if ¬(1 ≤ d1.length ∧ d1.length ≤ 2) then none
  else
    match l.dropWhile isDigitChar with
    | s1 :: r1 =>
      if ¬isSepChar s1 then none
      else
        let d2 := r1.takeWhile isDigitChar
        if ¬(1 ≤ d2.length ∧ d2.length ≤ 2) then none
        else
          match r1.dropWhile isDigitChar with
          | s2 :: r2 =>
            if ¬isSepChar s2 then none
            else
              let yy := r2.takeWhile isDigitChar
              if 2 ≤ yy.length ∧ yy.length ≤ 4 then
                some ⟨natOfDigits d1, natOfDigits d2, yy, r2.dropWhile isDigitChar⟩
              else none
          | [] => none
    | [] => none

/-- `\s+(\d{1,2}):(\d{1,2}):(\d{1,2})$` — the anchored time tail of
`dotTimeMatch`. -/
def matchTimeTailAnchored (l : List Char) : Option (ℕ × ℕ × ℕ) :=
  if l.takeWhile jsIsSpace = [] then none
  else
    let r := l.dropWhile jsIsSpace
    let hh := r.takeWhile isDigitChar
    match r.dropWhile isDigitChar with
    | ':' :: r2 =>
      if ¬(1 ≤ hh.length ∧ hh.length ≤ 2) then none
      else
        let mi := r2.takeWhile isDigitChar
        match r2.dropWhile isDigitChar with
        | ':' :: r3 =>
          if ¬(1 ≤ mi.length ∧ mi.length ≤ 2) then none
          else
            let ss := r3.takeWhile isDigitChar
            if 1 ≤ ss.length ∧ ss.length ≤ 2 ∧ r3.dropWhile isDigitChar = [] then
              some (natOfDigits hh, natOfDigits mi, natOfDigits ss)
            else none
        | _ => none
    | _ => none

/-- Day/month auto-detection of the dotted formats: a component `> 12` is
the day; ties default to `dd.mm` (Kazakhstan standard). -/
def dayMonthAuto (n1 n2 : ℕ) : Int × Int :=
  if n1 > 12 then ((n1 : Int), (n2 : Int) - 1)
  else if n2 > 12 then ((n2 : Int), (n1 : Int) - 1)
  else ((n1 : Int), (n2 : Int) - 1)

/-- The `monthWords` table (0-based months; January only in genitive). -/
def monthWordsVal (w : String) : Option Int :=
  (([("января", 0), ("февраль", 1), ("февраля", 1), ("март", 2), ("марта", 2),
     ("апрель", 3), ("апреля", 3), ("май", 4), ("мая", 4), ("июнь", 5),
     ("июня", 5), ("июль", 6), ("июля", 6), ("август", 7), ("августа", 7),
     ("сентябрь", 8), ("сентября", 8), ("октябрь", 9), ("октября", 9),
     ("ноябрь", 10), ("ноября", 10), ("декабрь", 11), ("декабря", 11)] :
    List (String × Int)).find? (fun p => p.1 = w)).map (·.2)

def isWordChar (c : Char) : Bool :=
  ('a' ≤ c ∧ c ≤ 'z') ∨ (0x430 ≤ c.toNat ∧ c.toNat ≤ 0x44F)

/-- `^(\d{1,2})\s+([а-яa-z]+)\s+(\d{2,4})$` on the lowercased string. -/
def matchWordDate (l : List Char) : Option (ℕ × String × List Char) :=
  let dd := l.takeWhile isDigitChar
  if ¬(1 ≤ dd.length ∧ dd.length ≤ 2) then none
  else
    let r1 := l.dropWhile isDigitChar
    if r1.takeWhile jsIsSpace = [] then none
    else
      let r2 := r1.dropWhile jsIsSpace
      let w := r2.takeWhile isWordChar
      if w = [] then none
      else
        let r3 := r2.dropWhile isWordChar
        if r3.takeWhile jsIsSpace = [] then none
        else
          let yy := (r3.dropWhile jsIsSpace).takeWhile isDigitChar
          if 2 ≤ yy.length ∧ yy.length ≤ 4 ∧
              (r3.dropWhile jsIsSpace).dropWhile isDigitChar = [] then
            some (natOfDigits dd, String.mk w, yy)
          else none

/-- src/index.js `tryParseDate` on a string value (after the `Date` and
number branches). -/
def tryParseDateString (s : String) : Option Int :=
  let raw := jsTrim s.data
  if raw = [] ∨ raw = "null".data ∨ raw = "undefined".data ∨ raw = "NaN".data ∨
      raw.map jsToLowerChar = "none".data then none
  else
    match jsDateParse raw with
    | some ts => some ts
    | none =>
      match matchIncompleteDot raw with
      | some (mm, yy) => some (jsDateUTC (yearFromYY yy) ((mm : Int) - 1) 1 0)
      | none =>
        match matchDotLead raw with
        | some p =>
          match p.rest, matchTimeTailAnchored p.rest with
          | [], _ =>
            let year := yearFromYY p.yy
            let (day, month) := dayMonthAuto p.n1 p.n2
            if day < 1 ∨ day > 31 ∨ month < 0 ∨ month > 11 then none
            else some (jsDateUTC year month day 0)
          | _, some (hh, mi, ss) =>
            let year := yearFromYY p.yy
            let (day, month) := dayMonthAuto p.n1 p.n2
            if day < 1 ∨ day > 31 ∨ month < 0 ∨ month > 11 then none
            else some (jsDateUTC year month day
              (((hh * 3600 + mi * 60 + ss) * 1000 : ℕ) : Int))
          | _, none => wordDateBranch raw
        | none => wordDateBranch raw
where
  wordDateBranch (raw : List Char) : Option Int :=
    match matchWordDate (raw.map jsToLowerChar) with
    | some (dd, w, yy) =>
      match monthWordsVal w with
      | some month => some (jsDateUTC (yearFromYY yy) month (dd : Int) 0)
      | none => none
    | none => none

def excelEpochDays : Int := daysFromCivil 1899 12 30

/-- src/index.js `tryParseDate`: falsy values, Excel serial numbers (with
the `[1990, current+1]` year guard), epoch-millisecond numbers, then the
string formats. -/
def tryParseDate (now : Int) (v : JsVal) : Option Int :=
  match v with
  | .bool _ => none
  | .num q =>
    if q = 0 then none
    else
      let serialHit : Option Int :=
        if 0 < q ∧ q < 1000000 then
          let days : Int := ⌊q⌋
          let ms : Int := ⌊(q - (days : ℚ)) * 86400000⌋
          let ts := (excelEpochDays + days) * msPerDay + ms
          let dy := getUTCFullYear ts
          if 1990 ≤ dy ∧ dy ≤ getUTCFullYear now + 1 then some ts else none
        else none
      match serialHit with
      | some ts => some ts
      | none =>
        if q > 946684800000 ∧ q ≤ 8640000000000000 then some ⌊q⌋
        else tryParseDateString (ratToString q)
  | .str s => if s = "" then none else tryParseDateString s

/-! ## Transaction date extraction (src/index.js `extractTransactionDate`) -/

def TRANSACTION_DATE_KEYS : List String :=
  ["Дата", "дата", "Date", "date", "та", "Дата операции", "дата операции",
   "Дата платежа", "дата платежа", "Дата документа", "дата документа",
   "operation date", "transaction date", "Value Date", "value date", "күні"]

/-- Length consumed by the optional greedy time group
`(?:\s+\d{1,2}:\d{1,2}(?::\d{1,2})?)?` of `datePattern` at the head of
`l`, or `none` when the group does not participate. -/
def timeGroupLen (l : List Char) : Option ℕ :=
  let sp := l.takeWhile jsIsSpace
  if sp = [] then none
  else
    let r := l.drop sp.length
    let hrun := r.takeWhile isDigitChar
    if ¬(1 ≤ hrun.length ∧ hrun.length ≤ 2) then none
    else
      match r.drop hrun.length with
      | ':' :: r2 =>
        let mrun := r2.takeWhile isDigitChar
        if mrun.length = 0 then none
        else
          let mLen := min mrun.length 2
          let base := sp.length + hrun.length + 1 + mLen
          match r2.drop mLen with
          | ':' :: r3 =>
            let srun := r3.takeWhile isDigitChar
            if srun.length = 0 then some base
            else some (base + 1 + min srun.length 2)
          | _ => some base
      | _ => none

/-- Length of a `datePattern` match anchored at the head of `l`: one-or-two
digits, separator, one-or-two digits, separator, a greedy 2-4 digit year,
and the optional time group; `none` when no match starts here. -/
def datePatternMatchAt (l : List Char) : Option ℕ :=
  let d1 := l.takeWhile isDigitChar
  if ¬(1 ≤ d1.length ∧ d1.length ≤ 2) then none
  else
    match l.drop d1.length with
    | s1 :: r1 =>
      if ¬isSepChar s1 then none
      else
        let d2 := r1.takeWhile isDigitChar
        if ¬(1 ≤ d2.length ∧ d2.length ≤ 2) then none
        else
          match r1.drop d2.length with
          | s2 :: r2 =>
            if ¬isSepChar s2 then none
            else
              let yrun := r2.takeWhile isDigitChar
              if yrun.length < 2 then none
              else
                let base := d1.length + 1 + d2.length + 1 + min yrun.length 4
                match timeGroupLen (l.drop base) with
                | some tn => some (base + tn)
                | none => some base
          | [] => none
    | [] => none

/-- Fuelled worker of `scanDateMatches`. -/
def scanDateMatchesAux : ℕ → List Char → List (List Char)
  | 0, _ => []
  | _ + 1, [] => []
  | fuel + 1, c :: t =>
    match datePatternMatchAt (c :: t) with
    | some n => (c :: t).take n :: scanDateMatchesAux fuel ((c :: t).drop (max n 1))
    | none => scanDateMatchesAux fuel t

/-- `trimmed.matchAll(datePattern)`: the successive non-overlapping
leftmost matches (every step consumes at least one character, so
`l.length` fuel is exact). -/
def scanDateMatches (l : List Char) : List (List Char) :=
  scanDateMatchesAux l.length l

/-- Does `l` match `\s+[^\d:]+$` in its entirety? -/
def isTrailJunk (l : List Char) : Bool :=
  match l with
  | [] => false
  | c :: rest => jsIsSpace c ∧ rest ≠ [] ∧
      rest.all (fun d => ¬isDigitChar d ∧ d ≠ ':')

/-- `dateStr.replace(/\s+[^\d:]+$/, '')`: drop the leftmost suffix matching
the pattern (a `datePattern` match ends in a digit, so in practice this is
the identity; kept for fidelity). -/
def stripTrailingNoise (l : List Char) : List Char :=
  match l with
  | [] => []
  | c :: rest =>
    if isTrailJunk (c :: rest) then []
    else c :: stripTrailingNoise rest

/-- The inner per-match loop of the value scan: trim, strip trailing
noise, re-trim, parse, and accept the first hit whose year lies in
`[2000, currentYear + 2]`. -/
def firstScanHit (now : Int) : List (List Char) → Option Int
  | [] => none
  | m :: rest =>
    let dateStr := jsTrim (stripTrailingNoise (jsTrim m))
    match tryParseDateString (String.mk dateStr) with
    | some d =>
      if 2000 ≤ getUTCFullYear d ∧ getUTCFullYear d ≤ getUTCFullYear now + 2 then
        some d
      else firstScanHit now rest
    | none => firstScanHit now rest

/-- Step 2 of `extractTransactionDate`: scan every non-internal field for
a date pattern (strings) or an Excel serial / timestamp (numbers). -/
def fieldDateScan (now : Int) : List (String × JsVal) → Option Int
  | [] => none
  | (k, v) :: rest =>
    if startsWithChars k.data "_ikap_".data ∨ k = "page_number" ∨ k = "bank_name" then
      fieldDateScan now rest
    else
      match v with
      | .str s =>
        let trimmed := jsTrim s.data
        if trimmed = [] ∨ trimmed.map jsToLowerChar = "none".data then
          fieldDateScan now rest
        else
          match firstScanHit now (scanDateMatches trimmed) with
          | some d => some d
          | none => fieldDateScan now rest
      | .num q =>
        match tryParseDate now (.num q) with
        | some d =>
          if 2000 ≤ getUTCFullYear d ∧ getUTCFullYear d ≤ getUTCFullYear now + 2 then
            some d
          else fieldDateScan now rest
        | none => fieldDateScan now rest
      | .bool _ => fieldDateScan now rest

/-- src/index.js `extractTransactionDate`: canonical date keys first, then
the aggressive per-field scan. -/
def extractTransactionDate (now : Int) (t : Transaction) : Option Int :=
  let value := getFieldValue t TRANSACTION_DATE_KEYS
  let parsed := if value ≠ "" then tryParseDateString value else none
  match parsed with
  | some d => some d
  | none => fieldDateScan now t

/-! ## Heuristic classifier (src/index.js `classifyTransactionHeuristically`) -/

def REVENUE_KEYWORDS : List String :=
  ["оплата", "за товар", "за товары", "за услугу", "за услуги", "договор",
   "invoice", "contract", "поставка", "продажа", "реализац", "sales",
   "services", "услуги", "работы", "покупатель", "customer", "сф#",
   "счет-фактура", "счет фактура", "акт оказанных", "акт оказ", "акт услуг",
   "зп#", "уведомление", "опл прочих", "оплата прочих", "оплата услуг",
   "оплата работ", "kaspi", "kaspi.kz", "продажи с kaspi",
   "продажи с kaspi.kz"]

def NON_REVENUE_KEYWORDS : List String :=
  ["займ", "кредит", "loan", "return", "возврат средств",
   "возврат денежных средств", "возврат за непредоставленные",
   "между своими", "депозит", "вклад", "refund", "инвести", "дивиденды",
   "дивиденд", "штраф", "налог", "tax", "penalty", "зарплат", "з/п",
   "зарплата", "salary", "членский", "membership", "взнос", "страхов",
   "безвозмездная", "терминал id", "cash in", "cash in&out",
   "наличность в терминалах", "наличность в эле",
   "пополнение через терминал", "пополнение те", "безвозмездный",
   "материальная помощь"]

def terminalMarkers : List String :=
  ["терминал id", "cash in", "cash in&out", "наличность в терминалах",
   "наличность в эле", "пополнение через терминал"]

def containsAny (keywords : List String) (text : String) : Bool :=
  keywords.any (fun k => strContains text k)

inductive ClassKind where
  | revenue
  | non_revenue
  | ambiguous
deriving DecidableEq, Repr

structure Classification where
  kind : ClassKind
  reason : String
deriving DecidableEq, Repr

def classifyTransactionHeuristically (t : Transaction) : Classification :=
  let purpose := jsToLower (extractPurpose t)
  let sender := jsToLower (extractSender t)
  let combinedText := jsToLower (purpose ++ " " ++ sender)
  if purpose = "" ∧ sender = "" then
    ⟨.ambiguous, "нет назначения платежа и отправителя"⟩
  else if containsAny terminalMarkers combinedText then
    ⟨.non_revenue, "пополнение через терминал - не выручка (собственные средства)"⟩
  else if containsAny NON_REVENUE_KEYWORDS combinedText then
    ⟨.non_revenue, "обнаружены маркеры невыручки"⟩
  else if containsAny REVENUE_KEYWORDS purpose then
    ⟨.revenue, "обнаружены маркеры выручки"⟩
  else if strContains purpose "пополнение" ∨ strContains purpose "перевод" then
    ⟨.ambiguous, "пополнение/перевод требует анализа контекста"⟩
  else
    ⟨.ambiguous, "нет явных маркеров"⟩

/-! ## Confidence split (src/index.js `splitTransactionsByConfidence`) -/

/-- The spread `{...t, _ikap_classification_source, _ikap_classification_reason}`
used for the obvious-revenue branch. -/
def tagRevenue (t : Transaction) (reason : String) : Transaction :=
  objSet (objSet t "_ikap_classification_source" (.str "heuristic"))
    "_ikap_classification_reason" (.str reason)

/-- The spread used for the needs-review branch, with the
`_ikap_possible_non_revenue` hint. -/
def tagReview (t : Transaction) (c : Classification) : Transaction :=
  objSet (objSet (objSet t "_ikap_classification_source" (.str "agent_required"))
      "_ikap_classification_reason" (.str c.reason))
    "_ikap_possible_non_revenue" (.bool (c.kind = .non_revenue))

structure SplitResult where
  obviousRevenue : List Transaction
  needsReview : List Transaction
deriving DecidableEq, Repr

def splitTransactionsByConfidence : List Transaction → SplitResult
  | [] => ⟨[], []⟩
  | t :: rest =>
    let c := classifyTransactionHeuristically t
    let r := splitTransactionsByConfidence rest
    if c.kind = .revenue then
      ⟨tagRevenue t c.reason :: r.obviousRevenue, r.needsReview⟩
    else
      ⟨r.obviousRevenue, tagReview t c :: r.needsReview⟩

/-- `classificationStats` built right after the split (src/index.js
lines 2008-2012): `agentReviewed` is the size of the needs-review set. -/
structure ClassificationStats where
  totalTransactions : ℕ
  autoRevenue : ℕ
  agentReviewed : ℕ
deriving DecidableEq, Repr

def classificationStats (ts : List Transaction) : ClassificationStats :=
  let s := splitTransactionsByConfidence ts
  ⟨ts.length, s.obviousRevenue.length, s.needsReview.length⟩

/-! ## LLM decision folding and finalize status (src/index.js lines 2111-2197) -/

/-- One entry of the parsed classifier response; absent JSON keys are
`none`. -/
structure ClassifierEntry where
  id : Option String
  is_revenue : Option Bool
  isRevenue : Option Bool
  revenue : Option Bool
  label : Option String
  reason : Option String
  explanation : Option String
deriving DecidableEq, Repr

structure Decision where
  isRevenue : Bool
  reason : String
deriving DecidableEq, Repr

/-- `Map.set` on an insertion-ordered map with string keys. -/
def mapSet (m : List (String × Decision)) (k : String) (v : Decision) :
    List (String × Decision) :=
  if m.any (fun p => p.1 = k) then
    m.map (fun p => if p.1 = k then (k, v) else p)
  else m ++ [(k, v)]

/-- `entry.reason || entry.explanation || ''` (empty strings are falsy). -/
def orFalsyStr (a b : Option String) : String :=
  match a with
  | some s => if s = "" then (match b with | some u => u | none => "") else s
  | none => match b with | some u => if u = "" then "" else u | none => ""

/-- The `decisionsMap` fold: skip entries without a truthy id, coalesce the
legacy revenue-flag spellings, and `Map.set` under the stringified id. -/
def buildDecisionsMap (entries : List ClassifierEntry) : List (String × Decision) :=
  entries.foldl
    (fun m e =>
      match e.id with
      | none => m
      | some i =>
        if i = "" then m
        else
          mapSet m i
            ⟨((e.is_revenue <|> e.isRevenue <|> e.revenue).getD
                (e.label = some "revenue")),
              orFalsyStr e.reason e.explanation⟩)
    []

/-- `String(transaction._ikap_tx_id)` used as the decisions-map key. -/
def txKey (t : Transaction) : String :=
  match objGet? t "_ikap_tx_id" with
  | some (.str s) => s
  | some (.num q) => ratToString q
  | some (.bool b) => if b then "true" else "false"
  | none => "undefined"

def lookupDecision (m : List (String × Decision)) (k : String) : Option Decision :=
  (m.find? (fun p => p.1 = k)).map (·.2)

/-- The finalize-step `openaiStatus` (src/index.js lines 2196-2197):
`skipped` when nothing needed review, `completed` when the decisions map
is non-empty, `partial` otherwise. -/
def computeOpenaiStatus (needsReview : List Transaction)
    (entries : List ClassifierEntry) : String :=
  if needsReview.length = 0 then "skipped"
  else if (buildDecisionsMap entries).length > 0 then "completed"
  else "partial"

/-- The per-transaction fold of decisions back onto the needs-review set
(src/index.js lines 2129-2149): a matching decision routes the
transaction with source `agent`; a missing one defaults to non-revenue
with source `agent_missing`. -/
def foldDecisions (needsReview : List Transaction)
    (entries : List ClassifierEntry) : List Transaction × List Transaction :=
  let m := buildDecisionsMap entries
  needsReview.foldl
    (fun (acc : List Transaction × List Transaction) t =>
      let decision := lookupDecision m (txKey t)
      let isRevenue := match decision with | some d => d.isRevenue | none => false
      let reason := match decision with
        | some d => d.reason
        | none => "нет решения от агента, по умолчанию не выручка"
      let enriched :=
        objSet (objSet t "_ikap_classification_source"
            (.str (if decision.isSome then "agent" else "agent_missing")))
          "_ikap_classification_reason" (.str reason)
      if isRevenue then (acc.1 ++ [enriched], acc.2)
      else (acc.1, acc.2 ++ [enriched]))
    ([], [])

/-! ## Aggregation (src/index.js `aggregateByYearMonth`,
`computeTrailing12Months`, `buildStructuredSummary`) -/

def MONTH_NAMES_RU : List String :=
  ["январь", "февраль", "март", "апрель", "май", "июнь", "июль", "август",
   "сентябрь", "октябрь", "ноябрь", "декабрь"]

/-- `ru-RU` currency rendering: non-breaking-space thousands groups, two
comma-separated decimals, a trailing ` KZT`. -/
def formatCurrencyKzt (q : ℚ) : String :=
  let cents : Int := ⌊q * 100 + 1 / 2⌋
  let n := cents.natAbs
  let ip := natDigits (n / 100)
  let grouped := ((ip.reverse.toChunks 3).intersperse [Char.ofNat 160]).flatten.reverse
  let fr := n % 100
  String.mk ((if cents < 0 then ['-'] else []) ++ grouped ++
    [','] ++ [Char.ofNat (48 + fr / 10), Char.ofNat (48 + fr % 10)]) ++ " KZT"

structure MonthBucket where
  month : String
  value : ℚ
  formatted : String
deriving DecidableEq, Repr

structure YearBucket where
  year : Int
  value : ℚ
  formatted : String
  months : List MonthBucket
deriving DecidableEq, Repr

abbrev YearMap := List (Int × (ℚ × List (Int × ℚ)))

/-- Insertion-ordered map update used for the aggregation `Map`s. -/
def yearMapSet (m : YearMap) (k : Int) (v : ℚ × List (Int × ℚ)) : YearMap :=
  if m.any (fun p => p.1 = k) then
    m.map (fun p => if p.1 = k then (k, v) else p)
  else m ++ [(k, v)]

def monthMapSet (m : List (Int × ℚ)) (k : Int) (v : ℚ) : List (Int × ℚ) :=
  if m.any (fun p => p.1 = k) then
    m.map (fun p => if p.1 = k then (k, v) else p)
  else m ++ [(k, v)]

/-- The per-transaction step of `aggregateByYearMonth`: zero amounts,
missing dates and dates beyond `now + 3 days` are skipped. -/
def aggregateStep (now : Int) (yearMap : YearMap) (t : Transaction) : YearMap :=
  let amount := parseAmountNumber (extractAmountRaw t)
  if amount = 0 then yearMap
  else
    match extractTransactionDate now t with
    | none => yearMap
    | some d =>
      if d > now + 3 * msPerDay then yearMap
      else
        let year := getUTCFullYear d
        let month := getUTCMonth0 d
        let yearEntry := ((yearMap.find? (fun p => p.1 = year)).map (·.2)).getD (0, [])
        let monthValue := ((yearEntry.2.find? (fun p => p.1 = month)).map (·.2)).getD 0
        yearMapSet yearMap year
          (yearEntry.1 + amount, monthMapSet yearEntry.2 month (monthValue + amount))

/-- Insertion sort by an integer key (the year/month keys are unique, so
this is the JS array sort). -/
def insertByKey {β : Type} (p : Int × β) : List (Int × β) → List (Int × β)
  | [] => [p]
  | q :: rest => if p.1 ≤ q.1 then p :: q :: rest else q :: insertByKey p rest

def sortByKey {β : Type} : List (Int × β) → List (Int × β)
  | [] => []
  | p :: rest => insertByKey p (sortByKey rest)

def monthLabel (m : Int) : String :=
  ((MONTH_NAMES_RU.get? m.toNat).getD (toString (m + 1)))

def aggregateByYearMonth (now : Int) (ts : List Transaction) : List YearBucket :=
  let yearMap := ts.foldl (aggregateStep now) []
  (sortByKey yearMap).map (fun p =>
    { year := p.1
      value := p.2.1
      formatted := formatCurrencyKzt p.2.1
      months := (sortByKey p.2.2).map (fun mp =>
        { month := monthLabel mp.1
          value := mp.2
          formatted := formatCurrencyKzt mp.2 }) })

/-- The `dated` projection of `computeTrailing12Months`: transactions with
a truthy parsed amount and a parsed date. -/
def datedOf (now : Int) (ts : List Transaction) : List (ℚ × Int) :=
  ts.filterMap (fun t =>
    let amount := parseAmountNumber (extractAmountRaw t)
    match extractTransactionDate now t with
    | some d => if amount ≠ 0 then some (amount, d) else none
    | none => none)

/-- The window start of `computeTrailing12Months`: `setUTCDate(1)`,
`setUTCFullYear(sameYear)`, `setUTCMonth(month − 11)` — note the
time-of-day of the reference date is retained. -/
def trailingWindowStart (ref : Int) : Int :=
  let w1 := jsSetUTCDate ref 1
  let w2 := jsSetUTCFullYear w1 (getUTCFullYear ref)
  jsSetUTCMonth w2 (getUTCMonth0 w2 - 11)

def computeTrailing12Months (now : Int) (ts : List Transaction) : ℚ × Option Int :=
  match datedOf now ts with
  | [] => (0, none)
  | first :: _ =>
    let dated := datedOf now ts
    let ref := dated.foldl
      (fun latest cur => if cur.2 > latest then cur.2 else latest) first.2
    let windowStart := trailingWindowStart ref
    let total := (dated.filter (fun it => windowStart ≤ it.2 ∧ it.2 ≤ ref)).foldl
      (fun s it => s + it.1) 0
    (total, some ref)

structure Stats where
  totalTransactions : ℕ
  autoRevenue : ℕ
  agentReviewed : ℕ
  agentDecisions : ℕ
  unresolved : ℕ
deriving DecidableEq, Repr

/-- The claim-relevant projection of `buildStructuredSummary`:
`generatedAt`, the preview lists and the per-field `formatted` copies of
the numeric fields are presentation-only and omitted. -/
structure StructuredSummary where
  totalsRevenue : ℚ
  totalsNonRevenue : ℚ
  revenueYears : List YearBucket
  nonRevenueYears : List YearBucket
  trailingValue : ℚ
  trailingRefEnd : Option Int
  stats : Stats
deriving DecidableEq, Repr

def buildStructuredSummary (now : Int) (revenueTransactions : List Transaction)
    (nonRevenueTransactions : List Transaction) (stats : Stats) :
    StructuredSummary :=
  let revenueSummary := aggregateByYearMonth now revenueTransactions
  let nonRevenueSummary := aggregateByYearMonth now nonRevenueTransactions
  let totalRevenue := revenueTransactions.foldl
    (fun sum t => sum + parseAmountNumber (extractAmountRaw t)) 0
  let totalNonRevenue := nonRevenueTransactions.foldl
    (fun sum t => sum + parseAmountNumber (extractAmountRaw t)) 0
  let trailing := computeTrailing12Months now revenueTransactions
  { totalsRevenue := totalRevenue
    totalsNonRevenue := totalNonRevenue
    revenueYears := revenueSummary
    nonRevenueYears := nonRevenueSummary
    trailingValue := trailing.1
    trailingRefEnd := trailing.2
    stats := stats }

/-! ## Report store (src/index.js `upsertReport`) -/

structure ReportRow where
  status : Option String
  report_text : Option String
  report_structured : Option String
  files_count : Option Int
  files_data : Option String
  completed_at : Option String
  comment : Option String
  openai_response_id : Option String
  openai_status : Option String
deriving DecidableEq, Repr

structure UpsertPayload where
  status : Option String
  reportText : Option String
  reportStructured : Option String
  filesCount : Option Int
  filesData : Option String
  completed : Option String
  comment : Option String
  openaiResponseId : Option String
  openaiStatus : Option String
deriving DecidableEq, Repr

/-- `x || null` on a string field (empty strings are falsy). -/
def orNullFalsy (o : Option String) : Option String :=
  match o with
  | some s => if s = "" then none else some s
  | none => none

/-- The bound statement parameters of `stmt.run(...)` as a row. -/
def bindUpsertArgs (p : UpsertPayload) : ReportRow :=
  { status := p.status
    report_text := orNullFalsy p.reportText
    report_structured := orNullFalsy p.reportStructured
    files_count := p.filesCount
    files_data := orNullFalsy p.filesData
    completed_at := orNullFalsy p.completed
    comment := p.comment
    openai_response_id := p.openaiResponseId
    openai_status := p.openaiStatus }

/-- The `INSERT … ON CONFLICT(session_id) DO UPDATE` of `upsertReport`:
only `report_structured`, `comment`, `openai_response_id` and
`openai_status` are COALESCEd; the other columns take the excluded
values verbatim. -/
def applyUpsert (prior : Option ReportRow) (p : UpsertPayload) : ReportRow :=
  let x := bindUpsertArgs p
  match prior with
  | none => x
  | some r =>
    { status := x.status
      report_text := x.report_text
      report_structured := x.report_structured <|> r.report_structured
      files_count := x.files_count
      files_data := x.files_data
      completed_at := x.completed_at
      comment := x.comment <|> r.comment
      openai_response_id := x.openai_response_id <|> r.openai_response_id
      openai_status := x.openai_status <|> r.openai_status }

/-- The body of `upsertReport` before the catch: prepare and run the
statement against the stored row, or raise when the database fails. -/
def upsertReportRun (dbFail : Bool) (prior : Option ReportRow)
    (p : UpsertPayload) : Except String (Option ReportRow) :=
  if dbFail then .error "db error" else .ok (some (applyUpsert prior p))

/-- src/index.js `upsertReport`: the whole body sits in a
`try … catch (error) { console.error(…) }`, so a database failure is
logged and swallowed and the stored row is left as it was. -/
def upsertReport (dbFail : Bool) (prior : Option ReportRow)
    (p : UpsertPayload) : Except String (Option ReportRow) :=
  match upsertReportRun dbFail prior p with
  | .ok st => .ok st
  | .error _ => .ok prior

/-! ## Dedup set of the analysis endpoint (src/index.js lines 1708-2250) -/

/-- `Set.add` on the in-process `activeAnalysisSessions` set. -/
def setAdd (l : List String) (x : String) : List String :=
  if x ∈ l then l else l ++ [x]

/-- `Set.delete`. -/
def setDelete (l : List String) (x : String) : List String :=
  l.filter (fun y => y ≠ x)

inductive SubmitOutcome where
  | conflict
  | filesRequired
  | accepted
  | syncError
deriving DecidableEq, Repr

/-- The synchronous part of `POST /api/analysis` restricted to its effect
on the dedup set: the 409 check, the `add`, the no-files 400 return (which
does not delete), and the catch-all handler (which does). -/
def postAnalysisSync (active : List String) (sid : String) (hasFiles : Bool)
    (syncThrows : Bool) : SubmitOutcome × List String :=
  if sid ∈ active then (.conflict, active)
  else
    let a1 := setAdd active sid
    if ¬hasFiles then (.filesRequired, a1)
    else if syncThrows then (.syncError, setDelete a1 sid)
    else (.accepted, a1)

/-- The end of the spawned background task: both the `finally` of the
async IIFE and its `.catch` delete the session id. -/
def backgroundFinish (active : List String) (sid : String) : List String :=
  setDelete active sid

/-! ## PDF-extractor stdout handling (src/pdfConverter.js lines 197-231) -/

/-- The JSON-block extraction from the Python extractor's trimmed stdout:
take the substring from the later of the last `[` and the last `{`
(when that position is `> 0`), ending at the last `]` or `}` matching the
first extracted character. -/
def extractJsonBlock (stdoutTrimmed : List Char) : List Char :=
  let jsonStartIndex := max (lastIdx stdoutTrimmed '[') (lastIdx stdoutTrimmed (Char.ofNat 123))
  if jsonStartIndex > 0 then
    let extracted := stdoutTrimmed.drop jsonStartIndex.toNat
    let jsonEndIndex : ℕ :=
      match extracted with
      | '[' :: _ =>
        let lastBracketIndex := lastIdx extracted ']'
        if lastBracketIndex > 0 then lastBracketIndex.toNat + 1 else extracted.length
      | c :: _ =>
        if c = Char.ofNat 123 then
          let lastBraceIndex := lastIdx extracted (Char.ofNat 125)
          if lastBraceIndex > 0 then lastBraceIndex.toNat + 1 else extracted.length
        else extracted.length
      | [] => extracted.length
    extracted.take jsonEndIndex
  else stdoutTrimmed

/-! ## Spec-side comparison definitions and concrete inputs -/

/-- A fixed observation instant shared by the concrete evaluations:
2026-10-12T00:00:00Z. -/
def nowRef : Int := jsDateUTC 2026 9 12 0

/-- The claimed status update (modelled from the spec's words, for
comparison): the new status wins unless a stored terminal status would be
replaced by `generating`. -/
def specStatusCoalesce (old new : Option String) : Option String :=
  match new with
  | none => old
  | some s =>
    if s = "generating" ∧ (old = some "completed" ∨ old = some "failed") then old
    else some s

/-- The claimed upsert semantics (modelled from the spec's words, for
comparison): fieldwise COALESCE of the payload over the stored row, every
field passed as null preserving the stored value, and a terminal status
never regressing. -/
def specUpsert (prior : ReportRow) (p : UpsertPayload) : ReportRow :=
  let x := bindUpsertArgs p
  { status := specStatusCoalesce prior.status x.status
    report_text := x.report_text <|> prior.report_text
    report_structured := x.report_structured <|> prior.report_structured
    files_count := x.files_count <|> prior.files_count
    files_data := x.files_data <|> prior.files_data
    completed_at := x.completed_at <|> prior.completed_at
    comment := x.comment <|> prior.comment
    openai_response_id := x.openai_response_id <|> prior.openai_response_id
    openai_status := x.openai_status <|> prior.openai_status }

/-- The claimed trailing-12-months computation (modelled from the spec's
words, for comparison): the reference date is the latest parsed date among
all revenue transactions, and the window starts at midnight of the first
day of the month eleven months before it. -/
def specTrailing12 (now : Int) (ts : List Transaction) : ℚ × Option Int :=
  let datedAll := ts.filterMap (fun t =>
    (extractTransactionDate now t).map
      (fun d => (parseAmountNumber (extractAmountRaw t), d)))
  match datedAll with
  | [] => (0, none)
  | first :: _ =>
    let ref := datedAll.foldl
      (fun latest cur => if cur.2 > latest then cur.2 else latest) first.2
    let windowStart := jsDateUTC (getUTCFullYear ref) (getUTCMonth0 ref - 11) 1 0
    let total := ((datedAll.filter
      (fun it => windowStart ≤ it.2 ∧ it.2 ≤ ref)).map Prod.fst).sum
    (total, some ref)

/-- The condition under which `aggregateStep` actually accumulates a
transaction: a non-zero parsed amount and a parsed date not beyond
`now + 3 days`.  There is no lower date bound here. -/
def monthlyEligible (now : Int) (t : Transaction) : Bool :=
  if parseAmountNumber (extractAmountRaw t) = 0 then false
  else
    match extractTransactionDate now t with
    | some d => decide (d ≤ now + 3 * msPerDay)
    | none => false

/-- Lists consisting of decimal digits only. -/
def DigitsOnly (l : List Char) : Prop := ∀ c ∈ l, isDigitChar c = true

/-! ### Concrete inputs for the per-claim evaluations -/

/-- Prior row for the upsert claims: a freshly created `generating` row. -/
def rowC1 : ReportRow :=
  ⟨some "generating", none, none, some 2, some "fd", none, none, none, none⟩

/-- First payload: a completed final report. -/
def payloadC1a : UpsertPayload :=
  ⟨some "completed", some "REPORT", some "\x7b\"totals\":1\x7d", some 2,
   some "fd", some "2024-05-01T00:00:00.000Z", some "c", some "resp_1",
   some "completed"⟩

/-- Second payload: a later progress write that passes most fields as
null and a `generating` status. -/
def payloadC1b : UpsertPayload :=
  ⟨some "generating", none, none, some 2, some "fd", none, none, none, none⟩

/-- Scenario-1 transactions (spec §8): three revenues and one terminal
self-deposit. -/
def txSc1A : Transaction :=
  [("Дата", .str "2024-03-04"), ("Кредит", .str "500000"),
   ("Назначение платежа", .str "Оплата по СФ №12")]

def txSc1B : Transaction :=
  [("Дата", .str "2024-03-15"), ("Кредит", .str "1200000"),
   ("Назначение платежа", .str "Оплата за услуги")]

def txSc1C : Transaction :=
  [("Дата", .str "2024-04-02"), ("Кредит", .str "50000"),
   ("Назначение платежа", .str "Cash In Терминал ID 42")]

def txSc1D : Transaction :=
  [("Дата", .str "2024-04-18"), ("Кредит", .str "750000"),
   ("Назначение платежа", .str "Оплата по договору")]

def scenario1 : List Transaction := [txSc1A, txSc1B, txSc1C, txSc1D]

/-- Two reviewed transactions for the finalize-status claim. -/
def txRevA : Transaction := [("_ikap_tx_id", .str "s_1")]

def txRevB : Transaction := [("_ikap_tx_id", .str "s_2")]

/-- An LLM answer covering only the first of the two reviewed ids. -/
def entryS1 : ClassifierEntry :=
  ⟨some "s_1", some true, none, none, none, some "оплата от клиента", none⟩

/-- A 1995 statement line: the canonical date key carries an ISO date the
standard parser accepts, so the `[2000, current+2]` guard of the
fallback scan never runs. -/
def txOld1995 : Transaction :=
  [("Дата", .str "1995-06-15"), ("Кредит", .str "100")]

/-- Trailing-window transactions: one on the first day of the window
month at 00:00, the reference transaction at 12:00, and a zero-amount
transaction dated later than everything else. -/
def txTrailA : Transaction :=
  [("Дата", .str "2024-06-01T06:00:00Z"), ("Кредит", .str "100")]

def txTrailB : Transaction :=
  [("Дата", .str "2025-05-10T12:00:00Z"), ("Кредит", .str "500")]

def txTrailC : Transaction :=
  [("Дата", .str "2025-05-20T08:00:00Z"), ("Кредит", .str "0")]

/-- Extractor stdout: one log line, then a two-element JSON array of
per-file results (the first with a nested empty `transactions` array). -/
def pdfStdoutSample : List Char :=
  ("Processing 2 files...\n[\x7b\"source_file\":\"a.pdf\",\"transactions\":[]\x7d,\x7b\"source_file\":\"b.pdf\"\x7d]").data

/-- The JSON block of `pdfStdoutSample` (the entire array). -/
def pdfJsonBlockSample : List Char :=
  ("[\x7b\"source_file\":\"a.pdf\",\"transactions\":[]\x7d,\x7b\"source_file\":\"b.pdf\"\x7d]").data

/-! # Theorems -/

attribute [local semireducible] Rat.add Rat.mul Rat.sub Rat.inv

/-- Claim C1, counterexample: two `upsertReport` calls on an existing row
do not implement the claimed fieldwise COALESCE with a non-regressing
status.  With a stored `completed` row, a second payload passing
`report_text` as null and status `generating` nulls the stored text and
regresses the status, while the claimed semantics (`specUpsert`) would
preserve both. -/
theorem C1_counterexample :
    applyUpsert (some (applyUpsert (some rowC1) payloadC1a)) payloadC1b ≠
      specUpsert (specUpsert rowC1 payloadC1a) payloadC1b := by
  decide

/-- Claim C1, amended: after `upsertReport(S, p₁)` then `upsertReport(S, p₂)`
on an existing row, only `report_structured`, `comment`,
`openai_response_id` and `openai_status` equal the fieldwise COALESCE of
p₂ over p₁ over the prior row; `status`, `report_text`, `files_count`,
`files_data` and `completed_at` take p₂'s bound values verbatim, so a null
overwrites a stored value and a stored terminal status is replaced by
whatever status p₂ carries, including `generating`. -/
theorem C1_upsert_two_step (r : ReportRow) (p₁ p₂ : UpsertPayload) :
    applyUpsert (some (applyUpsert (some r) p₁)) p₂ =
      { status := (bindUpsertArgs p₂).status
        report_text := (bindUpsertArgs p₂).report_text
        report_structured := (bindUpsertArgs p₂).report_structured <|>
          ((bindUpsertArgs p₁).report_structured <|> r.report_structured)
        files_count := (bindUpsertArgs p₂).files_count
        files_data := (bindUpsertArgs p₂).files_data
        completed_at := (bindUpsertArgs p₂).completed_at
        comment := (bindUpsertArgs p₂).comment <|>
          ((bindUpsertArgs p₁).comment <|> r.comment)
        openai_response_id := (bindUpsertArgs p₂).openai_response_id <|>
          ((bindUpsertArgs p₁).openai_response_id <|> r.openai_response_id)
        openai_status := (bindUpsertArgs p₂).openai_status <|>
          ((bindUpsertArgs p₁).openai_status <|> r.openai_status) } := rfl

/-- Claim C10: `upsertReport` swallows every database failure: the call
always resolves (returns `.ok`), and on a failed write the stored row —
including a `generating` status — is left exactly as it was. -/
theorem C10_upsert_never_throws (dbFail : Bool) (prior : Option ReportRow)
    (p : UpsertPayload) :
    (∃ st, upsertReport dbFail prior p = .ok st) ∧
      (dbFail = true → upsertReport dbFail prior p = .ok prior) := by
  cases dbFail <;> simp [upsertReport, upsertReportRun]

/-- Claim C4, counterexample: the no-files 400 rejection does not remove
the session id from the dedup set — after a no-files POST for session
`S`, the set still holds `S`, and a subsequent valid POST for `S` is
rejected with 409 `ANALYSIS_IN_PROGRESS`, contradicting the claim that
every exit path releases the id. -/
theorem C4_counterexample :
    postAnalysisSync [] "S" false false = (.filesRequired, ["S"]) ∧
      postAnalysisSync ["S"] "S" true false = (.conflict, ["S"]) := by
  decide

/-- Claim C4, amended: the dedup id is released on background completion
or failure (the `finally` and `.catch` of the spawned task) and on a
synchronous exception, but NOT on the no-files 400 rejection, where the
id stays in the set; while an id is in the set a duplicate submission is
rejected with the conflict outcome. -/
theorem C4_dedup_release (active : List String) (sid : String)
    (hasFiles syncThrows : Bool) :
    (sid ∈ active →
      postAnalysisSync active sid hasFiles syncThrows = (.conflict, active)) ∧
    (sid ∉ active → hasFiles = false →
      postAnalysisSync active sid hasFiles syncThrows =
        (.filesRequired, setAdd active sid) ∧
      sid ∈ (postAnalysisSync active sid hasFiles syncThrows).2) ∧
    (sid ∉ active → hasFiles = true → syncThrows = true →
      (postAnalysisSync active sid hasFiles syncThrows).1 = .syncError ∧
      sid ∉ (postAnalysisSync active sid hasFiles syncThrows).2) ∧
    (sid ∉ active → hasFiles = true → syncThrows = false →
      (postAnalysisSync active sid hasFiles syncThrows).1 = .accepted ∧
      sid ∈ (postAnalysisSync active sid hasFiles syncThrows).2 ∧
      sid ∉ backgroundFinish (postAnalysisSync active sid hasFiles syncThrows).2 sid) := by
  refine ⟨fun h => by simp [postAnalysisSync, h], fun h hf => ?_,
    fun h hf ht => ?_, fun h hf ht => ?_⟩
  · simp [postAnalysisSync, h, hf, setAdd]
  · simp [postAnalysisSync, h, hf, ht, setDelete]
  · simp [postAnalysisSync, h, hf, ht, setAdd, backgroundFinish, setDelete]

set_option maxRecDepth 4000 in
/-- Claim C9: on an extractor stdout of one log line followed by a JSON
array of two per-file result objects, the extraction starts at the last
`\x7b` (inside the array) rather than at the array's opening `[`, so the
recovered block is the final object — a fragment — and not the entire
array. -/
theorem C9_extract_fragment :
    extractJsonBlock pdfStdoutSample = "\x7b\"source_file\":\"b.pdf\"\x7d".data ∧
      extractJsonBlock pdfStdoutSample ≠ pdfJsonBlockSample := by
  decide

lemma mapSet_ne_nil (m : List (String × Decision)) (k : String) (v : Decision) :
    mapSet m k v ≠ [] := by
  unfold mapSet
  split
  · rcases m with _ | ⟨p, m⟩ <;> simp_all
  · simp

lemma decisionsFold_ne_nil (entries : List ClassifierEntry)
    (m : List (String × Decision)) (hm : m ≠ []) :
    entries.foldl
      (fun m e =>
        match e.id with
        | none => m
        | some i =>
          if i = "" then m
          else
            mapSet m i
              ⟨((e.is_revenue <|> e.isRevenue <|> e.revenue).getD
                  (e.label = some "revenue")),
                orFalsyStr e.reason e.explanation⟩)
      m ≠ [] := by
  induction entries generalizing m with
  | nil => exact hm
  | cons e rest ih =>
    simp only [List.foldl_cons]
    rcases he : e.id with _ | i
    · exact ih m hm
    · by_cases hi : i = ""
      · simp only [he, hi, if_pos rfl]
        exact ih m hm
      · simp only [he, if_neg hi]
        exact ih _ (mapSet_ne_nil _ _ _)

lemma buildDecisionsMap_ne_nil_iff (entries : List ClassifierEntry) :
    buildDecisionsMap entries ≠ [] ↔
      ∃ e ∈ entries, ∃ i, e.id = some i ∧ i ≠ "" := by
  unfold buildDecisionsMap
  induction entries with
  | nil => simp
  | cons e rest ih =>
    simp only [List.foldl_cons]
    rcases he : e.id with _ | i
    · simpa [he] using ih
    · by_cases hi : i = ""
      · subst hi
        simpa [he] using ih
      · simp only [he, if_neg hi]
        constructor
        · intro _
          exact ⟨e, List.mem_cons_self e rest, i, he, hi⟩
        · intro _
          exact decisionsFold_ne_nil rest _ (mapSet_ne_nil _ _ _)

/-- Claim C3, counterexample: two reviewed transactions with ids `s_1`,
`s_2`, an LLM decision list covering only `s_1`: the finalize step stores
openai-status `completed` even though `s_2` received no decision, where
the claim demands `partial`. -/
theorem C3_counterexample :
    computeOpenaiStatus [txRevA, txRevB] [entryS1] = "completed" ∧
      lookupDecision (buildDecisionsMap [entryS1]) (txKey txRevB) = none := by
  decide

/-- Claim C3, amended: the stored openai-status is `skipped` iff there
were no needs-review transactions; it is `completed` iff there were some
and AT LEAST ONE decision entry with a truthy id arrived (not
necessarily one per reviewed transaction); and it is `partial` iff there
were some and no usable decision entry at all arrived. -/
theorem C3_openai_status (needsReview : List Transaction)
    (entries : List ClassifierEntry) :
    (computeOpenaiStatus needsReview entries = "skipped" ↔ needsReview = []) ∧
    (computeOpenaiStatus needsReview entries = "completed" ↔
      needsReview ≠ [] ∧ ∃ e ∈ entries, ∃ i, e.id = some i ∧ i ≠ "") ∧
    (computeOpenaiStatus needsReview entries = "partial" ↔
      needsReview ≠ [] ∧ ¬∃ e ∈ entries, ∃ i, e.id = some i ∧ i ≠ "") := by
  have hchar := buildDecisionsMap_ne_nil_iff entries
  unfold computeOpenaiStatus
  rcases needsReview with _ | ⟨t, nr⟩
  · simp
  · rcases h : buildDecisionsMap entries with _ | ⟨d, m⟩
    · rw [h] at hchar
      simp only [List.length_cons, Nat.succ_ne_zero, if_neg, List.length_nil]
      simp only [ne_eq, not_true_eq_false, false_iff] at hchar
      push_neg at hchar
      simp [hchar]
      exact hchar
    · rw [h] at hchar
      have : ∃ e ∈ entries, ∃ i, e.id = some i ∧ i ≠ "" := by
        rw [← hchar]; simp
      simp [this]

lemma split_spec (ts : List Transaction) :
    (splitTransactionsByConfidence ts).obviousRevenue =
      (ts.filter (fun t => (classifyTransactionHeuristically t).kind = .revenue)).map
        (fun t => tagRevenue t (classifyTransactionHeuristically t).reason) ∧
    (splitTransactionsByConfidence ts).needsReview =
      (ts.filter (fun t => ¬(classifyTransactionHeuristically t).kind = .revenue)).map
        (fun t => tagReview t (classifyTransactionHeuristically t)) := by
  induction ts with
  | nil => simp [splitTransactionsByConfidence]
  | cons t rest ih =>
    by_cases h : (classifyTransactionHeuristically t).kind = .revenue
    · simp [splitTransactionsByConfidence, h, ih.1, ih.2]
    · simp [splitTransactionsByConfidence, h, ih.1, ih.2]

set_option maxRecDepth 8000 in
/-- Claim C2, counterexample: in scenario 1 the terminal self-deposit
`Cash In Терминал ID 42` is deterministically classified non-revenue by
the heuristic, yet it is placed in the needs-review set (flagged
`_ikap_possible_non_revenue`) rather than directly in a non-revenue
result, and `stats.agentReviewed` is 1, not the claimed 0. -/
theorem C2_counterexample :
    (classifyTransactionHeuristically txSc1C).kind = .non_revenue ∧
      (splitTransactionsByConfidence scenario1).needsReview =
        [tagReview txSc1C (classifyTransactionHeuristically txSc1C)] ∧
      (classificationStats scenario1).agentReviewed = 1 := by
  decide

/-- Claim C2, amended: only the heuristic's revenue class bypasses the
LLM: the obvious-revenue list is exactly the heuristically-revenue
transactions, and everything else — the ambiguous class AND the
deterministic non-revenue class (the latter flagged
`_ikap_possible_non_revenue`) — is sent to review and counted in
`stats.agentReviewed`. -/
theorem C2_split_routing (ts : List Transaction) :
    (splitTransactionsByConfidence ts).obviousRevenue =
      (ts.filter (fun t => (classifyTransactionHeuristically t).kind = .revenue)).map
        (fun t => tagRevenue t (classifyTransactionHeuristically t).reason) ∧
    (splitTransactionsByConfidence ts).needsReview =
      (ts.filter (fun t => ¬(classifyTransactionHeuristically t).kind = .revenue)).map
        (fun t => tagReview t (classifyTransactionHeuristically t)) ∧
    (classificationStats ts).agentReviewed =
      (ts.filter (fun t => ¬(classifyTransactionHeuristically t).kind = .revenue)).length := by
  refine ⟨(split_spec ts).1, (split_spec ts).2, ?_⟩
  show (splitTransactionsByConfidence ts).needsReview.length = _
  rw [(split_spec ts).2, List.length_map]

lemma aggregateStep_skip (now : Int) (acc : YearMap) (t : Transaction)
    (h : monthlyEligible now t = false) : aggregateStep now acc t = acc := by
  unfold monthlyEligible at h
  unfold aggregateStep
  by_cases ha : parseAmountNumber (extractAmountRaw t) = 0
  · simp [ha]
  · simp only [ha, if_false, if_neg ha] at h ⊢
    rcases hd : extractTransactionDate now t with _ | d
    · rfl
    · rw [hd] at h
      simp only [decide_eq_false_iff_not, not_le] at h
      simp [h]

lemma aggregate_foldl_filter (now : Int) (ts : List Transaction) (acc : YearMap) :
    ts.foldl (aggregateStep now) acc =
      (ts.filter (monthlyEligible now)).foldl (aggregateStep now) acc := by
  induction ts generalizing acc with
  | nil => rfl
  | cons t rest ih =>
    by_cases h : monthlyEligible now t
    · simp only [List.foldl_cons, List.filter_cons_of_pos h]
      exact ih _
    · rw [List.filter_cons_of_neg (by simpa using h), List.foldl_cons,
        aggregateStep_skip now acc t (by simpa using h)]
      exact ih _

lemma foldl_add_amounts (ts : List Transaction) (init : ℚ) :
    ts.foldl (fun s t => s + parseAmountNumber (extractAmountRaw t)) init =
      init + (ts.map (fun t => parseAmountNumber (extractAmountRaw t))).sum := by
  induction ts generalizing init with
  | nil => simp
  | cons t rest ih => simp [ih, add_assoc]

set_option maxRecDepth 8000 in
/-- Claim C5, counterexample: a transaction whose canonical date key
parses (through the standard `Date.parse` path, which has no year guard)
to 1995-06-15 — before 2000-01-01 — is nevertheless aggregated into the
monthly tables, because `aggregateByYearMonth` checks only the upper
`now + 3 days` bound. -/
theorem C5_counterexample :
    ((aggregateByYearMonth nowRef [txOld1995]).map (fun y => y.year)) = [1995] ∧
      extractTransactionDate nowRef txOld1995 = some (jsDateUTC 1995 5 15 0) ∧
      jsDateUTC 1995 5 15 0 < jsDateUTC 2000 0 1 0 := by
  decide

/-- Claim C5, amended: a classified transaction contributes to the
per-year/per-month tables exactly when its parsed amount is non-zero and
its parsed date exists and is at most `now + 3 days` — there is no
2000-01-01 lower bound (the `[2000, current+2]` guard exists only inside
the fallback field-scan of date extraction) — while `totals` always sums
the parsed amounts of ALL transactions of each class, dated or not. -/
theorem C5_date_window (now : Int) (rev nonRev : List Transaction) (st : Stats) :
    (buildStructuredSummary now rev nonRev st).revenueYears =
      aggregateByYearMonth now (rev.filter (monthlyEligible now)) ∧
    (buildStructuredSummary now rev nonRev st).nonRevenueYears =
      aggregateByYearMonth now (nonRev.filter (monthlyEligible now)) ∧
    (buildStructuredSummary now rev nonRev st).totalsRevenue =
      (rev.map (fun t => parseAmountNumber (extractAmountRaw t))).sum ∧
    (buildStructuredSummary now rev nonRev st).totalsNonRevenue =
      (nonRev.map (fun t => parseAmountNumber (extractAmountRaw t))).sum := by
  refine ⟨?_, ?_, ?_, ?_⟩
  · show aggregateByYearMonth now rev = _
    unfold aggregateByYearMonth
    rw [aggregate_foldl_filter]
  · show aggregateByYearMonth now nonRev = _
    unfold aggregateByYearMonth
    rw [aggregate_foldl_filter]
  · show rev.foldl _ 0 = _
    rw [foldl_add_amounts]; ring
  · show nonRev.foldl _ 0 = _
    rw [foldl_add_amounts]; ring

/-- Claim C8: the heuristic applies its rules in the stated order.  With
`purpose`/`sender` the lowercased extracted fields and `combined` their
lowercased concatenation: empty purpose and sender give ambiguous; a
terminal-deposit marker in the combined text gives non-revenue and
dominates the later rules (in particular a terminal self-deposit whose
purpose also mentions `пополнение` is never routed to the top-up rule);
otherwise a non-revenue marker in the combined text gives non-revenue;
otherwise a revenue marker in the purpose gives revenue; otherwise a
purpose mentioning `пополнение` or `перевод` gives ambiguous; otherwise
the result is ambiguous. -/
theorem C8_heuristic_rule_order (t : Transaction) :
    ((jsToLower (extractPurpose t) = "" ∧ jsToLower (extractSender t) = "") →
      (classifyTransactionHeuristically t).kind = .ambiguous) ∧
    (¬(jsToLower (extractPurpose t) = "" ∧ jsToLower (extractSender t) = "") →
      containsAny terminalMarkers
        (jsToLower (jsToLower (extractPurpose t) ++ " " ++
          jsToLower (extractSender t))) = true →
      (classifyTransactionHeuristically t).kind = .non_revenue) ∧
    (¬(jsToLower (extractPurpose t) = "" ∧ jsToLower (extractSender t) = "") →
      containsAny terminalMarkers
        (jsToLower (jsToLower (extractPurpose t) ++ " " ++
          jsToLower (extractSender t))) = true →
      strContains (jsToLower (extractPurpose t)) "пополнение" = true →
      (classifyTransactionHeuristically t).kind = .non_revenue) ∧
    (¬(jsToLower (extractPurpose t) = "" ∧ jsToLower (extractSender t) = "") →
      containsAny terminalMarkers
        (jsToLower (jsToLower (extractPurpose t) ++ " " ++
          jsToLower (extractSender t))) = false →
      containsAny NON_REVENUE_KEYWORDS
        (jsToLower (jsToLower (extractPurpose t) ++ " " ++
          jsToLower (extractSender t))) = true →
      (classifyTransactionHeuristically t).kind = .non_revenue) ∧
    (¬(jsToLower (extractPurpose t) = "" ∧ jsToLower (extractSender t) = "") →
      containsAny terminalMarkers
        (jsToLower (jsToLower (extractPurpose t) ++ " " ++
          jsToLower (extractSender t))) = false →
      containsAny NON_REVENUE_KEYWORDS
        (jsToLower (jsToLower (extractPurpose t) ++ " " ++
          jsToLower (extractSender t))) = false →
      containsAny REVENUE_KEYWORDS (jsToLower (extractPurpose t)) = true →
      (classifyTransactionHeuristically t).kind = .revenue) ∧
    (¬(jsToLower (extractPurpose t) = "" ∧ jsToLower (extractSender t) = "") →
      containsAny terminalMarkers
        (jsToLower (jsToLower (extractPurpose t) ++ " " ++
          jsToLower (extractSender t))) = false →
      containsAny NON_REVENUE_KEYWORDS
        (jsToLower (jsToLower (extractPurpose t) ++ " " ++
          jsToLower (extractSender t))) = false →
      containsAny REVENUE_KEYWORDS (jsToLower (extractPurpose t)) = false →
      (strContains (jsToLower (extractPurpose t)) "пополнение" = true ∨
        strContains (jsToLower (extractPurpose t)) "перевод" = true) →
      (classifyTransactionHeuristically t).kind = .ambiguous ∧
        (classifyTransactionHeuristically t).reason =
          "пополнение/перевод требует анализа контекста") ∧
    (¬(jsToLower (extractPurpose t) = "" ∧ jsToLower (extractSender t) = "") →
      containsAny terminalMarkers
        (jsToLower (jsToLower (extractPurpose t) ++ " " ++
          jsToLower (extractSender t))) = false →
      containsAny NON_REVENUE_KEYWORDS
        (jsToLower (jsToLower (extractPurpose t) ++ " " ++
          jsToLower (extractSender t))) = false →
      containsAny REVENUE_KEYWORDS (jsToLower (extractPurpose t)) = false →
      ¬(strContains (jsToLower (extractPurpose t)) "пополнение" = true ∨
        strContains (jsToLower (extractPurpose t)) "перевод" = true) →
      (classifyTransactionHeuristically t).kind = .ambiguous ∧
        (classifyTransactionHeuristically t).reason = "нет явных маркеров") := by
  unfold classifyTransactionHeuristically
  refine ⟨fun h => by simp [h.1, h.2],
    fun h1 h2 => by simp [h1, h2],
    fun h1 h2 _ => by simp [h1, h2],
    fun h1 h2 h3 => by simp [h1, h2, h3],
    fun h1 h2 h3 h4 => by simp [h1, h2, h3, h4],
    fun h1 h2 h3 h4 h5 => by simp [h1, h2, h3, h4, h5],
    fun h1 h2 h3 h4 h5 => by simp [h1, h2, h3, h4, h5]⟩

lemma foldlMax_spec (l : List (ℚ × Int)) (init : Int) :
    (l.foldl (fun latest cur => if cur.2 > latest then cur.2 else latest) init
        = init ∨
      l.foldl (fun latest cur => if cur.2 > latest then cur.2 else latest) init
        ∈ l.map Prod.snd) ∧
    init ≤ l.foldl (fun latest cur => if cur.2 > latest then cur.2 else latest) init ∧
    ∀ p ∈ l, p.2 ≤
      l.foldl (fun latest cur => if cur.2 > latest then cur.2 else latest) init := by
  induction l generalizing init with
  | nil => simp
  | cons q rest ih =>
    simp only [List.foldl_cons, List.map_cons]
    have hspec := ih (if q.2 > init then q.2 else init)
    constructor
    · rcases hspec.1 with heq | hmem
      · rw [heq]
        by_cases hq : q.2 > init
        · right; simp [hq]
        · left; simp [hq]
      · right
        exact List.mem_cons_of_mem _ hmem
    · constructor
      · refine le_trans ?_ hspec.2.1
        by_cases hq : q.2 > init
        · simp [hq]; omega
        · simp [hq]
      · intro p hp
        rcases List.mem_cons.mp hp with rfl | hp
        · refine le_trans ?_ hspec.2.1
          by_cases hq : p.2 > init
          · simp [hq]
          · simp [hq]; omega
        · exact hspec.2.2 p hp

lemma foldl_sum_fst (l : List (ℚ × Int)) (init : ℚ) :
    l.foldl (fun s it => s + it.1) init = init + (l.map Prod.fst).sum := by
  induction l generalizing init with
  | nil => simp
  | cons q rest ih => simp [ih, add_assoc]

set_option maxRecDepth 8000 in
/-- Claim C6, counterexample: with a revenue transaction at
2024-06-01T06:00Z (100), the latest non-zero transaction at
2025-05-10T12:00Z (500) and a zero-amount transaction at
2025-05-20T08:00Z, the code returns total 500 with reference period end
2025-05-10T12:00Z — the zero-amount transaction is excluded from the
reference date, and the window opens at 2024-06-01T12:00Z (keeping the
reference's time of day) so the 06:00 transaction falls outside — while
the claim's formula (first-of-month at midnight, reference = latest
parsed date among the revenue transactions) yields 600 ending
2025-05-20T08:00Z. -/
theorem C6_counterexample :
    computeTrailing12Months nowRef [txTrailA, txTrailB, txTrailC] ≠
      specTrailing12 nowRef [txTrailA, txTrailB, txTrailC] := by
  decide

/-- Claim C6, amended: when some revenue transaction has a parsed date
and a non-zero parsed amount, the reference date is the LATEST date
among the dated transactions WITH NON-ZERO AMOUNT, reference-period-end
equals it, and the trailing value sums the amounts of exactly those
dated non-zero transactions whose date lies in
`[day 1 of (reference month − 11) at the reference's time of day,
reference]`. -/
theorem C6_trailing_window (now : Int) (ts : List Transaction)
    (h : datedOf now ts ≠ []) :
    ∃ ref, (computeTrailing12Months now ts).2 = some ref ∧
      ref ∈ (datedOf now ts).map Prod.snd ∧
      (∀ p ∈ datedOf now ts, p.2 ≤ ref) ∧
      (computeTrailing12Months now ts).1 =
        (((datedOf now ts).filter
          (fun it => trailingWindowStart ref ≤ it.2 ∧ it.2 ≤ ref)).map
            Prod.fst).sum := by
  rcases hd : datedOf now ts with _ | ⟨first, rest⟩
  · exact absurd hd h
  · unfold computeTrailing12Months
    rw [hd]
    dsimp only
    refine ⟨(first :: rest).foldl
      (fun latest cur => if cur.2 > latest then cur.2 else latest) first.2,
      rfl, ?_, ?_, ?_⟩
    · rcases (foldlMax_spec (first :: rest) first.2).1 with heq | hmem
      · rw [heq]; simp
      · exact hmem
    · intro p hp
      exact (foldlMax_spec (first :: rest) first.2).2.2 p hp
    · rw [foldl_sum_fst, zero_add]

set_option maxRecDepth 8000 in
/-- Witness for the amended trailing-window theorem at a concrete
two-transaction input. -/
theorem C6_trailing_window_witness :
    ∃ ref, (computeTrailing12Months nowRef [txTrailA, txTrailB]).2 = some ref ∧
      ref ∈ (datedOf nowRef [txTrailA, txTrailB]).map Prod.snd ∧
      (∀ p ∈ datedOf nowRef [txTrailA, txTrailB], p.2 ≤ ref) ∧
      (computeTrailing12Months nowRef [txTrailA, txTrailB]).1 =
        (((datedOf nowRef [txTrailA, txTrailB]).filter
          (fun it => trailingWindowStart ref ≤ it.2 ∧ it.2 ≤ ref)).map
            Prod.fst).sum :=
  C6_trailing_window nowRef [txTrailA, txTrailB] (by decide)

lemma char_toNat_inj {a b : Char} : a = b ↔ a.toNat = b.toNat := by
  constructor
  · intro h; rw [h]
  · intro h
    have h2 := congrArg Char.ofNat h
    rwa [Char.ofNat_toNat, Char.ofNat_toNat] at h2

lemma digit_bounds {c : Char} (h : isDigitChar c = true) :
    48 ≤ c.toNat ∧ c.toNat ≤ 57 := by
  simpa [isDigitChar] using h

lemma digit_not_space {c : Char} (h : isDigitChar c = true) :
    jsIsSpace c = false := by
  have hb := digit_bounds h
  simp only [jsIsSpace, decide_eq_false_iff_not]
  omega

lemma digit_not_apos {c : Char} (h : isDigitChar c = true) :
    isAposChar c = false := by
  have hb := digit_bounds h
  simp only [isAposChar, decide_eq_false_iff_not]
  omega

lemma digit_numeric {c : Char} (h : isDigitChar c = true) :
    numericChar c = true := by
  simp [numericChar, h]

lemma digit_ne {c : Char} (h : isDigitChar c = true) (d : Char)
    (hd : isDigitChar d = false) : c ≠ d := by
  intro e
  rw [e, hd] at h
  cases h

lemma takeWhile_all {p : Char → Bool} {l : List Char}
    (h : ∀ c ∈ l, p c = true) : l.takeWhile p = l := by
  induction l with
  | nil => rfl
  | cons c t ih =>
    simp only [List.takeWhile_cons, h c (List.mem_cons_self c t), if_pos]
    rw [ih (fun d hd => h d (List.mem_cons_of_mem c hd))]

lemma dropWhile_all {p : Char → Bool} {l : List Char}
    (h : ∀ c ∈ l, p c = true) : l.dropWhile p = [] := by
  induction l with
  | nil => rfl
  | cons c t ih =>
    simp only [List.dropWhile_cons, h c (List.mem_cons_self c t), if_pos]
    exact ih (fun d hd => h d (List.mem_cons_of_mem c hd))

lemma takeWhile_append_stop {p : Char → Bool} (a : List Char) (x : Char)
    (b : List Char) (ha : ∀ c ∈ a, p c = true) (hx : p x = false) :
    (a ++ x :: b).takeWhile p = a := by
  induction a with
  | nil => simp [List.takeWhile_cons, hx]
  | cons c t ih =>
    simp only [List.cons_append, List.takeWhile_cons,
      ha c (List.mem_cons_self c t), if_pos]
    rw [ih (fun d hd => ha d (List.mem_cons_of_mem c hd))]

lemma dropWhile_append_stop {p : Char → Bool} (a : List Char) (x : Char)
    (b : List Char) (ha : ∀ c ∈ a, p c = true) (hx : p x = false) :
    (a ++ x :: b).dropWhile p = x :: b := by
  induction a with
  | nil => simp [List.dropWhile_cons, hx]
  | cons c t ih =>
    simp only [List.cons_append, List.dropWhile_cons,
      ha c (List.mem_cons_self c t), if_pos]
    exact ih (fun d hd => ha d (List.mem_cons_of_mem c hd))

lemma lastIdx_lt_length (l : List Char) (c : Char) : lastIdx l c < l.length := by
  induction l with
  | nil => simp [lastIdx]
  | cons x t ih =>
    unfold lastIdx
    simp only [List.length_cons]
    split
    · omega
    · split <;> omega

lemma lastIdx_cons (x : Char) (t : List Char) (c : Char) :
    lastIdx (x :: t) c =
      if lastIdx t c ≥ 0 then lastIdx t c + 1
      else if x = c then 0 else -1 := rfl

lemma lastIdx_nonneg_iff {l : List Char} {c : Char} :
    0 ≤ lastIdx l c ↔ c ∈ l := by
  induction l with
  | nil => simp [lastIdx]
  | cons x t ih =>
    rw [lastIdx_cons]
    by_cases hr : lastIdx t c ≥ 0
    · have hmem := ih.mp hr
      simp only [if_pos hr]
      constructor
      · intro _
        exact List.mem_cons_of_mem _ hmem
      · intro _
        omega
    · simp only [if_neg hr]
      by_cases hx : x = c
      · simp [hx]
      · simp only [if_neg hx]
        constructor
        · intro hcon
          omega
        · intro hmem
          rcases List.mem_cons.mp hmem with rfl | hmem2
          · exact absurd rfl hx
          · exact absurd (ih.mpr hmem2) hr

lemma lastIdx_ge (l : List Char) (c : Char) : -1 ≤ lastIdx l c := by
  induction l with
  | nil => simp [lastIdx]
  | cons x t ih =>
    rw [lastIdx_cons]
    by_cases hr : lastIdx t c ≥ 0
    · simp only [if_pos hr]
      omega
    · simp only [if_neg hr]
      by_cases hx : x = c <;> simp [hx]

lemma lastIdx_not_mem {l : List Char} {c : Char} (h : c ∉ l) :
    lastIdx l c = -1 := by
  have h1 : ¬0 ≤ lastIdx l c := fun hc => h (lastIdx_nonneg_iff.mp hc)
  have h2 := lastIdx_ge l c
  omega

lemma lastIdx_append (a b : List Char) (c : Char) :
    lastIdx (a ++ b) c =
      if c ∈ b then (a.length : Int) + lastIdx b c else lastIdx a c := by
  induction a with
  | nil =>
    by_cases h : c ∈ b
    · simp [h]
    · simp [h, lastIdx_not_mem h, lastIdx]
  | cons x t ih =>
    by_cases h : c ∈ b
    · rw [if_pos h] at ih ⊢
      have hb : 0 ≤ lastIdx b c := lastIdx_nonneg_iff.mpr h
      show lastIdx (x :: (t ++ b)) c = _
      rw [lastIdx_cons, ih]
      have hge : (t.length : Int) + lastIdx b c ≥ 0 := by omega
      simp only [if_pos hge, List.length_cons]
      push_cast
      ring
    · rw [if_neg h] at ih ⊢
      show lastIdx (x :: (t ++ b)) c = lastIdx (x :: t) c
      rw [lastIdx_cons, ih, lastIdx_cons]

lemma contains_true {l : List Char} {c : Char} (h : c ∈ l) :
    l.contains c = true := List.elem_iff.mpr h

lemma contains_false {l : List Char} {c : Char} (h : c ∉ l) :
    l.contains c = false := by
  rw [← Bool.not_eq_true, List.elem_iff]
  exact h

lemma dropWhile_none {p : Char → Bool} {l : List Char}
    (h : ∀ c ∈ l, p c = false) : l.dropWhile p = l := by
  cases l with
  | nil => rfl
  | cons c t => simp [List.dropWhile_cons, h c (List.mem_cons_self c t)]

lemma jsTrim_eq_self {l : List Char} (h : ∀ c ∈ l, jsIsSpace c = false) :
    jsTrim l = l := by
  unfold jsTrim
  rw [dropWhile_none h,
    dropWhile_none (fun c hc => h c (List.mem_reverse.mp hc)),
    List.reverse_reverse]

lemma sanitizeCleaned_eq_self {l : List Char}
    (h : ∀ c ∈ l, jsIsSpace c = false ∧ isAposChar c = false) :
    sanitizeCleaned l = l := by
  unfold sanitizeCleaned
  have hfilter : l.filter (fun c => ¬(jsIsSpace c ∨ isAposChar c)) = l :=
    List.filter_eq_self.mpr (fun a ha => by simp [(h a ha).1, (h a ha).2])
  rw [hfilter, jsTrim_eq_self (fun c hc => (h c hc).1)]

lemma take_append_cons (a : List Char) (x : Char) (b : List Char) :
    (a ++ x :: b).take a.length = a := List.take_left a (x :: b)

lemma drop_append_cons (a : List Char) (x : Char) (b : List Char) :
    (a ++ x :: b).drop (a.length + 1) = b := by
  have h1 : a ++ x :: b = (a ++ [x]) ++ b := by simp
  have h2 : a.length + 1 = (a ++ [x]).length := by simp
  rw [h1, h2, List.drop_left]

lemma count_single_sep (a cs : List Char) (sep : Char)
    (ha : sep ∉ a) (hc : sep ∉ cs) :
    (a ++ sep :: cs).count sep = 1 := by
  rw [List.count_append, List.count_cons_self,
    List.count_eq_zero_of_not_mem ha, List.count_eq_zero_of_not_mem hc]

lemma filter_ne_self {l : List Char} {sep : Char} (h : ∀ c ∈ l, c ≠ sep) :
    l.filter (fun c => c ≠ sep) = l :=
  List.filter_eq_self.mpr (fun c hc => by simpa using h c hc)

lemma filter_out_sep (a cs : List Char) (sep : Char)
    (ha : ∀ c ∈ a, c ≠ sep) (hc : ∀ c ∈ cs, c ≠ sep) :
    (a ++ sep :: cs).filter (fun c => c ≠ sep) = a ++ cs := by
  rw [List.filter_append, filter_ne_self ha, List.filter_cons]
  simp [filter_ne_self hc]
  exact hc

lemma DigitsOnly.not_mem {l : List Char} (h : DigitsOnly l) (d : Char)
    (hd : isDigitChar d = false) : d ∉ l := by
  intro hmem
  have := h d hmem
  rw [hd] at this
  cases this

lemma DigitsOnly.append {a b : List Char} (ha : DigitsOnly a)
    (hb : DigitsOnly b) : DigitsOnly (a ++ b) := by
  intro c hc
  rcases List.mem_append.mp hc with h | h
  · exact ha c h
  · exact hb c h

lemma digits_filter_self {l : List Char} (h : DigitsOnly l) :
    l.filter isDigitChar = l := List.filter_eq_self.mpr h


lemma sanitizeCore_single (neg : Bool) (a cs : List Char) (sep : Char)
    (ha : DigitsOnly a) (hc : DigitsOnly cs) (hs : sep = ',' ∨ sep = '.') :
    sanitizeCore neg (a ++ sep :: cs) =
      (if neg then ['-'] else []) ++
      (if 1 ≤ cs.length ∧ cs.length ≤ 2 then
        (if a = [] then ['0'] else a) ++ '.' :: cs
      else a ++ cs) := by
  have hsepd : isDigitChar sep = false := by rcases hs with rfl | rfl <;> decide
  have hsa : sep ∉ a := ha.not_mem sep hsepd
  have hsc : sep ∉ cs := hc.not_mem sep hsepd
  have hsepmem : sep ∈ a ++ sep :: cs :=
    List.mem_append.mpr (Or.inr (List.mem_cons_self sep cs))
  have hlast : lastIdx (a ++ sep :: cs) sep = (a.length : Int) := by
    rw [lastIdx_append, if_pos (List.mem_cons_self sep cs), lastIdx_cons,
      lastIdx_not_mem hsc]
    norm_num
  have hlen : (a ++ sep :: cs).length = a.length + cs.length + 1 := by
    simp [List.length_append]
    omega
  have hget : ((a ++ sep :: cs).get? a.length).getD ' ' = sep := by
    rw [List.get?_append_right (Nat.le_refl _)]
    simp
  have hcount := count_single_sep a cs sep hsa hsc
  have harith : a.length + cs.length + 1 - a.length - 1 = cs.length := by omega
  have hfilterA : ∀ c ∈ a, c ≠ sep := fun c hc2 => digit_ne (ha c hc2) sep hsepd
  have hfilterC : ∀ c ∈ cs, c ≠ sep := fun c hc2 => digit_ne (hc c hc2) sep hsepd
  unfold sanitizeCore
  rcases hs with rfl | rfl
  · have hdot : '.' ∉ a ++ ',' :: cs := by
      intro hmem
      rcases List.mem_append.mp hmem with h | h
      · exact absurd (ha '.' h) (by decide)
      · rcases List.mem_cons.mp h with h | h
        · cases h
        · exact absurd (hc '.' h) (by decide)
    rw [contains_true hsepmem, contains_false hdot, lastIdx_not_mem hdot, hlast]
    dsimp only
    simp only [Bool.false_eq_true, and_false, if_false]
    have hmax : ((a.length : Int) ⊔ -1) = (a.length : Int) := max_eq_left (by omega)
    simp only [hmax, Int.toNat_natCast]
    rw [if_neg (by omega : ¬((a.length : Int) = -1))]
    simp only [hget, hcount, hlen, take_append_cons, drop_append_cons,
      digits_filter_self ha, digits_filter_self hc, harith]
    by_cases hL : 1 ≤ cs.length ∧ cs.length ≤ 2
    · have hcne : cs ≠ [] := by
        intro h
        rw [h] at hL
        simp at hL
      rw [if_pos ⟨by omega, by omega, Or.inl trivial⟩, if_neg hcne, if_pos hL,
        List.append_assoc]
    · rw [if_neg (fun hcon => hL ⟨by omega, hcon.2.1⟩), if_neg hL]
      rw [filter_out_sep a cs ',' hfilterA hfilterC]
  · have hcomma : ',' ∉ a ++ '.' :: cs := by
      intro hmem
      rcases List.mem_append.mp hmem with h | h
      · exact absurd (ha ',' h) (by decide)
      · rcases List.mem_cons.mp h with h | h
        · cases h
        · exact absurd (hc ',' h) (by decide)
    rw [contains_true hsepmem, contains_false hcomma, lastIdx_not_mem hcomma, hlast]
    dsimp only
    simp only [Bool.false_eq_true, false_and, if_false]
    have hmax : ((-1 : Int) ⊔ (a.length : Int)) = (a.length : Int) := max_eq_right (by omega)
    simp only [hmax, Int.toNat_natCast]
    rw [if_neg (by omega : ¬((a.length : Int) = -1))]
    simp only [hget, hcount, hlen, take_append_cons, drop_append_cons,
      digits_filter_self ha, digits_filter_self hc, harith]
    by_cases hL : 1 ≤ cs.length ∧ cs.length ≤ 2
    · have hcne : cs ≠ [] := by
        intro h
        rw [h] at hL
        simp at hL
      rw [if_pos ⟨by omega, by omega, Or.inl trivial⟩, if_neg hcne, if_pos hL,
        List.append_assoc]
    · rw [if_neg (fun hcon => hL ⟨by omega, hcon.2.1⟩), if_neg hL]
      rw [filter_out_sep a cs '.' hfilterA hfilterC]


lemma replFirst_cons (x : Char) (l : List Char) (c d : Char) :
    replFirst (x :: l) c d = if x = c then d :: l else x :: replFirst l c d := rfl

lemma replFirst_append (d e : List Char) (c₀ d₀ : Char) (hd : c₀ ∉ d) :
    replFirst (d ++ c₀ :: e) c₀ d₀ = d ++ d₀ :: e := by
  induction d with
  | nil => simp [replFirst_cons]
  | cons x t ih =>
    have hx : x ≠ c₀ := fun h => hd (by simp [h])
    rw [List.cons_append, replFirst_cons, if_neg hx,
      ih (fun h => hd (List.mem_cons_of_mem _ h)), List.cons_append]

lemma sanitizeCore_digits (neg : Bool) (l : List Char) (h : DigitsOnly l) :
    sanitizeCore neg l = (if neg then ['-'] else []) ++ l := by
  have hcm : ',' ∉ l := h.not_mem ',' (by decide)
  have hdm : '.' ∉ l := h.not_mem '.' (by decide)
  unfold sanitizeCore
  rw [contains_false hcm, contains_false hdm, lastIdx_not_mem hcm,
    lastIdx_not_mem hdm]
  dsimp only
  simp

lemma not_mem_digits_cons {b cs : List Char} {s other : Char}
    (hb : DigitsOnly b) (hc : DigitsOnly cs) (hso : other ≠ s)
    (hd : isDigitChar other = false) : other ∉ b ++ s :: cs := by
  intro hmem
  rcases List.mem_append.mp hmem with h | h
  · exact absurd (hb other h) (by rw [hd]; exact fun h2 => by cases h2)
  · rcases List.mem_cons.mp h with h | h
    · exact hso h
    · exact absurd (hc other h) (by rw [hd]; exact fun h2 => by cases h2)

lemma sanitizeCore_comma_dot (neg : Bool) (a b cs : List Char)
    (ha : DigitsOnly a) (hb : DigitsOnly b) (hc : DigitsOnly cs) :
    sanitizeCore neg (a ++ ',' :: (b ++ '.' :: cs)) =
      (if neg then ['-'] else []) ++ ((a ++ b) ++ '.' :: cs) := by
  have hcomma_mem : ',' ∈ a ++ ',' :: (b ++ '.' :: cs) :=
    List.mem_append.mpr (Or.inr (List.mem_cons_self _ _))
  have hdot_tail : '.' ∈ ',' :: (b ++ '.' :: cs) :=
    List.mem_cons_of_mem _ (List.mem_append.mpr (Or.inr (List.mem_cons_self _ _)))
  have hdot_mem : '.' ∈ a ++ ',' :: (b ++ '.' :: cs) :=
    List.mem_append.mpr (Or.inr hdot_tail)
  have hlc : lastIdx (a ++ ',' :: (b ++ '.' :: cs)) ',' = (a.length : Int) := by
    rw [lastIdx_append, if_pos (List.mem_cons_self _ _), lastIdx_cons,
      lastIdx_not_mem (not_mem_digits_cons hb hc (by decide) (by decide))]
    norm_num
  have hld : lastIdx (a ++ ',' :: (b ++ '.' :: cs)) '.' =
      (a.length : Int) + (b.length : Int) + 1 := by
    rw [lastIdx_append, if_pos hdot_tail, lastIdx_cons]
    have hdb : lastIdx (b ++ '.' :: cs) '.' = (b.length : Int) := by
      rw [lastIdx_append, if_pos (List.mem_cons_self _ _), lastIdx_cons,
        lastIdx_not_mem (hc.not_mem '.' (by decide))]
      norm_num
    rw [hdb, if_pos (by omega : (b.length : Int) ≥ 0)]
    ring
  unfold sanitizeCore
  rw [contains_true hcomma_mem, contains_true hdot_mem, hlc, hld]
  dsimp only
  rw [if_pos ⟨rfl, rfl⟩,
    if_neg (by omega : ¬((a.length : Int) > (a.length : Int) + (b.length : Int) + 1))]
  have hfa : ∀ c ∈ a, c ≠ ',' := fun c hm => digit_ne (ha c hm) ',' (by decide)
  have hfrest : ∀ c ∈ b ++ '.' :: cs, c ≠ ',' := by
    intro c hm
    rcases List.mem_append.mp hm with h | h
    · exact digit_ne (hb c h) ',' (by decide)
    · rcases List.mem_cons.mp h with rfl | h
      · decide
      · exact digit_ne (hc c h) ',' (by decide)
  rw [filter_out_sep a (b ++ '.' :: cs) ',' hfa hfrest]
  simp [List.append_assoc]

lemma sanitizeCore_dot_comma (neg : Bool) (a b cs : List Char)
    (ha : DigitsOnly a) (hb : DigitsOnly b) (hc : DigitsOnly cs) :
    sanitizeCore neg (a ++ '.' :: (b ++ ',' :: cs)) =
      (if neg then ['-'] else []) ++ ((a ++ b) ++ '.' :: cs) := by
  have hdot_mem : '.' ∈ a ++ '.' :: (b ++ ',' :: cs) :=
    List.mem_append.mpr (Or.inr (List.mem_cons_self _ _))
  have hcomma_tail : ',' ∈ '.' :: (b ++ ',' :: cs) :=
    List.mem_cons_of_mem _ (List.mem_append.mpr (Or.inr (List.mem_cons_self _ _)))
  have hcomma_mem : ',' ∈ a ++ '.' :: (b ++ ',' :: cs) :=
    List.mem_append.mpr (Or.inr hcomma_tail)
  have hld : lastIdx (a ++ '.' :: (b ++ ',' :: cs)) '.' = (a.length : Int) := by
    rw [lastIdx_append, if_pos (List.mem_cons_self _ _), lastIdx_cons,
      lastIdx_not_mem (not_mem_digits_cons hb hc (by decide) (by decide))]
    norm_num
  have hlc : lastIdx (a ++ '.' :: (b ++ ',' :: cs)) ',' =
      (a.length : Int) + (b.length : Int) + 1 := by
    rw [lastIdx_append, if_pos hcomma_tail, lastIdx_cons]
    have hcb : lastIdx (b ++ ',' :: cs) ',' = (b.length : Int) := by
      rw [lastIdx_append, if_pos (List.mem_cons_self _ _), lastIdx_cons,
        lastIdx_not_mem (hc.not_mem ',' (by decide))]
      norm_num
    rw [hcb, if_pos (by omega : (b.length : Int) ≥ 0)]
    ring
  unfold sanitizeCore
  rw [contains_true hcomma_mem, contains_true hdot_mem, hlc, hld]
  dsimp only
  rw [if_pos ⟨rfl, rfl⟩,
    if_pos (by omega : (a.length : Int) + (b.length : Int) + 1 > (a.length : Int))]
  have hfa : ∀ c ∈ a, c ≠ '.' := fun c hm => digit_ne (ha c hm) '.' (by decide)
  have hfrest : ∀ c ∈ b ++ ',' :: cs, c ≠ '.' := by
    intro c hm
    rcases List.mem_append.mp hm with h | h
    · exact digit_ne (hb c h) '.' (by decide)
    · rcases List.mem_cons.mp h with rfl | h
      · decide
      · exact digit_ne (hc c h) '.' (by decide)
  rw [filter_out_sep a (b ++ ',' :: cs) '.' hfa hfrest, ← List.append_assoc,
    replFirst_append (a ++ b) cs ',' '.'
      (by
        intro hmem
        rcases List.mem_append.mp hmem with h | h
        · exact absurd (ha ',' h) (by decide)
        · exact absurd (hb ',' h) (by decide))]

lemma count_two_dots (a b cs : List Char) (ha : DigitsOnly a)
    (hb : DigitsOnly b) (hc : DigitsOnly cs) :
    (a ++ '.' :: (b ++ '.' :: cs)).count '.' = 2 := by
  rw [List.count_append, List.count_cons_self, List.count_append,
    List.count_cons_self, List.count_eq_zero_of_not_mem (ha.not_mem '.' (by decide)),
    List.count_eq_zero_of_not_mem (hb.not_mem '.' (by decide)),
    List.count_eq_zero_of_not_mem (hc.not_mem '.' (by decide))]

lemma sanitizeCore_dot_dot (neg : Bool) (a b cs : List Char)
    (ha : DigitsOnly a) (hb : DigitsOnly b) (hc : DigitsOnly cs) :
    sanitizeCore neg (a ++ '.' :: (b ++ '.' :: cs)) =
      (if neg then ['-'] else []) ++ (a ++ (b ++ cs)) := by
  have hsplit : a ++ '.' :: (b ++ '.' :: cs) = (a ++ '.' :: b) ++ '.' :: cs := by
    simp
  have hcm : ',' ∉ a ++ '.' :: (b ++ '.' :: cs) := by
    intro hmem
    rcases List.mem_append.mp hmem with h | h
    · exact absurd (ha ',' h) (by decide)
    · rcases List.mem_cons.mp h with h | h
      · cases h
      · rcases List.mem_append.mp h with h | h
        · exact absurd (hb ',' h) (by decide)
        · rcases List.mem_cons.mp h with h | h
          · cases h
          · exact absurd (hc ',' h) (by decide)
  have hdot_tail : '.' ∈ '.' :: (b ++ '.' :: cs) := List.mem_cons_self _ _
  have hdot_mem : '.' ∈ a ++ '.' :: (b ++ '.' :: cs) :=
    List.mem_append.mpr (Or.inr hdot_tail)
  have hld : lastIdx (a ++ '.' :: (b ++ '.' :: cs)) '.' =
      (a.length : Int) + (b.length : Int) + 1 := by
    rw [lastIdx_append, if_pos hdot_tail, lastIdx_cons]
    have hdb : lastIdx (b ++ '.' :: cs) '.' = (b.length : Int) := by
      rw [lastIdx_append, if_pos (List.mem_cons_self _ _), lastIdx_cons,
        lastIdx_not_mem (hc.not_mem '.' (by decide))]
      norm_num
    rw [hdb, if_pos (by omega : (b.length : Int) ≥ 0)]
    ring
  have hcast : ((a.length : Int) + (b.length : Int) + 1) =
      (((a ++ '.' :: b).length : ℕ) : Int) := by
    simp
    omega
  have hget : (((a ++ '.' :: b) ++ '.' :: cs).get? (a ++ '.' :: b).length).getD ' ' = '.' := by
    rw [List.get?_append_right (Nat.le_refl _)]
    simp
  have hlen2 : (a ++ '.' :: (b ++ '.' :: cs)).length =
      a.length + b.length + cs.length + 2 := by
    simp
    omega
  unfold sanitizeCore
  rw [contains_false hcm, contains_true hdot_mem, lastIdx_not_mem hcm, hld]
  dsimp only
  simp only [Bool.false_eq_true, false_and, and_false, if_false]
  have hmax : ((-1 : Int) ⊔ ((a.length : Int) + (b.length : Int) + 1)) =
      (a.length : Int) + (b.length : Int) + 1 := max_eq_right (by omega)
  simp only [hmax]
  rw [if_neg (by omega : ¬((a.length : Int) + (b.length : Int) + 1 = -1))]
  rw [hcast, Int.toNat_natCast]
  conv_lhs => rw [hsplit]
  rw [hget]
  have hcount2 : ((a ++ '.' :: b) ++ '.' :: cs).count '.' = 2 := by
    rw [← hsplit]
    exact count_two_dots a b cs ha hb hc
  rw [hcount2]
  have hfrac : ((a ++ '.' :: b) ++ '.' :: cs).length - (a ++ '.' :: b).length - 1 =
      cs.length := by
    simp
    omega
  rw [hfrac]
  rw [if_neg (fun hcon => by
    rcases hcon.2.2 with h | h
    · exact absurd h (by decide)
    · exact absurd h (by decide))]
  have hfilter : ((a ++ '.' :: b) ++ '.' :: cs).filter (fun c => c ≠ '.') =
      a ++ (b ++ cs) := by
    rw [← hsplit]
    rw [List.filter_append, filter_ne_self
      (fun c hm => digit_ne (ha c hm) '.' (by decide))]
    congr 1
    rw [List.filter_cons, if_neg (by decide)]
    exact filter_out_sep b cs '.' (fun c hm => digit_ne (hb c hm) '.' (by decide))
      (fun c hm => digit_ne (hc c hm) '.' (by decide))
  rw [hfilter]

lemma takeWhile_none {p : Char → Bool} {l : List Char}
    (h : ∀ c ∈ l, p c = false) : l.takeWhile p = [] := by
  cases l with
  | nil => rfl
  | cons c t => simp [List.takeWhile_cons, h c (List.mem_cons_self c t)]

lemma jsNumBody_int (neg : Bool) (l : List Char) (h : DigitsOnly l)
    (hne : l ≠ []) :
    jsNumBody neg l = some (if neg then -digitsVal l else digitsVal l) := by
  unfold jsNumBody
  rw [takeWhile_all h, dropWhile_all h]
  dsimp only
  rw [if_pos rfl, if_neg hne]

lemma jsNumBody_dec (neg : Bool) (a cs : List Char) (ha : DigitsOnly a)
    (hc : DigitsOnly cs) (hcne : cs ≠ []) :
    jsNumBody neg (a ++ '.' :: cs) =
      some (if neg then -(digitsVal a + digitsVal cs / 10 ^ cs.length)
        else digitsVal a + digitsVal cs / 10 ^ cs.length) := by
  unfold jsNumBody
  rw [takeWhile_append_stop a '.' cs ha (by decide),
    dropWhile_append_stop a '.' cs ha (by decide)]
  dsimp only
  rw [if_neg (by simp : ¬('.' :: cs = [])), List.head?_cons, if_pos rfl,
    List.tail_cons, takeWhile_all hc, dropWhile_all hc]
  rw [if_neg (by simp), if_neg (fun hcon => hcne hcon.2)]

lemma jsNumBody_none (neg : Bool) (l₁ : List Char)
    (h : ∀ c ∈ l₁, isDigitChar c = false) : jsNumBody neg l₁ = none := by
  have htake := takeWhile_none h
  have hdrop := dropWhile_none h
  unfold jsNumBody
  rw [htake, hdrop]
  dsimp only
  cases l₁ with
  | nil => simp
  | cons c t =>
    rw [if_neg (by simp : ¬(c :: t = [])), List.head?_cons, List.tail_cons]
    by_cases hcdot : c = '.'
    · rw [if_pos (by rw [hcdot])]
      have htail : ∀ d ∈ t, isDigitChar d = false :=
        fun d hd => h d (List.mem_cons_of_mem _ hd)
      rw [takeWhile_none htail, dropWhile_none htail]
      cases t with
      | nil => simp
      | cons c₂ r => rw [if_pos (by simp)]
    · rw [if_neg (by simp [hcdot])]

lemma jsStringToNumber_cons (c : Char) (rest : List Char) :
    jsStringToNumber (c :: rest) =
      if c = '-' then jsNumBody true rest else jsNumBody false (c :: rest) := rfl

lemma jsNum_int (neg : Bool) (l : List Char) (h : DigitsOnly l) (hne : l ≠ []) :
    jsStringToNumber ((if neg then ['-'] else []) ++ l) =
      some (if neg then -digitsVal l else digitsVal l) := by
  obtain ⟨x, xs, rfl⟩ : ∃ x xs, l = x :: xs := by
    cases l with
    | nil => exact absurd rfl hne
    | cons x xs => exact ⟨x, xs, rfl⟩
  cases neg
  · simp only [Bool.false_eq_true, if_false, List.nil_append]
    rw [jsStringToNumber_cons,
      if_neg (digit_ne (h x (List.mem_cons_self x xs)) '-' (by decide)),
      jsNumBody_int false (x :: xs) h hne]
    simp
  · simp only [if_true, List.singleton_append]
    rw [jsStringToNumber_cons, if_pos rfl, jsNumBody_int true (x :: xs) h hne]
    simp

lemma jsNum_dec (neg : Bool) (a cs : List Char) (ha : DigitsOnly a)
    (hc : DigitsOnly cs) (hcne : cs ≠ []) :
    jsStringToNumber ((if neg then ['-'] else []) ++ (a ++ '.' :: cs)) =
      some (if neg then -(digitsVal a + digitsVal cs / 10 ^ cs.length)
        else digitsVal a + digitsVal cs / 10 ^ cs.length) := by
  cases neg
  · simp only [Bool.false_eq_true, if_false, List.nil_append]
    cases a with
    | nil =>
      simp only [List.nil_append]
      rw [jsStringToNumber_cons, if_neg (by decide : ¬('.' = '-'))]
      have := jsNumBody_dec false [] cs (by intro c hc2; cases hc2) hc hcne
      simp only [List.nil_append] at this
      rw [this]
      simp
    | cons d t =>
      rw [List.cons_append, jsStringToNumber_cons,
        if_neg (digit_ne (ha d (List.mem_cons_self d t)) '-' (by decide)),
        ← List.cons_append, jsNumBody_dec false (d :: t) cs ha hc hcne]
      simp
  · simp only [if_true, List.singleton_append]
    rw [jsStringToNumber_cons, if_pos rfl, jsNumBody_dec true a cs ha hc hcne]
    simp

lemma numBody_digits {l : List Char} (h : DigitsOnly l) : NumBody l :=
  fun c hc => Or.inl (h c hc)

lemma numBody_append {a b : List Char} (ha : NumBody a) (hb : NumBody b) :
    NumBody (a ++ b) := by
  intro c hc
  rcases List.mem_append.mp hc with h | h
  · exact ha c h
  · exact hb c h

lemma numBody_cons {x : Char} {l : List Char}
    (hx : isDigitChar x = true ∨ x = ',' ∨ x = '.') (h : NumBody l) :
    NumBody (x :: l) := by
  intro c hc
  rcases List.mem_cons.mp hc with rfl | hc
  · exact hx
  · exact h c hc

lemma numBody_plain {l : List Char} (h : NumBody l) :
    ∀ c ∈ l, jsIsSpace c = false ∧ isAposChar c = false := by
  intro c hc
  rcases h c hc with hd | rfl | rfl
  · exact ⟨digit_not_space hd, digit_not_apos hd⟩
  · exact ⟨by decide, by decide⟩
  · exact ⟨by decide, by decide⟩

lemma numBody_numeric {l : List Char} (h : NumBody l) :
    ∀ c ∈ l, numericChar c = true := by
  intro c hc
  rcases h c hc with hd | rfl | rfl
  · exact digit_numeric hd
  · decide
  · decide

lemma numBody_no_dash {l : List Char} (h : NumBody l) : ∀ c ∈ l, c ≠ '-' := by
  intro c hc
  rcases h c hc with hd | rfl | rfl
  · exact digit_ne hd '-' (by decide)
  · decide
  · decide

lemma splitSign_cons (c : Char) (rest : List Char) :
    splitSign (c :: rest) = if c = '-' then (true, rest)
      else if c = '+' then (false, rest) else (false, c :: rest) := rfl

lemma splitDash_cons (n : Bool) (c : Char) (rest : List Char) :
    splitDash n (c :: rest) = if c = '-' then (true, rest)
      else (n, c :: rest) := rfl

lemma sanitizeNumberString_eval (sgn plus : Bool) (body : List Char)
    (hbody : NumBody body) (hne : body ≠ []) :
    sanitizeNumberString (signPrefix sgn plus ++ body) =
      sanitizeCore sgn body := by
  obtain ⟨x, xs, rfl⟩ : ∃ x xs, body = x :: xs := by
    cases body with
    | nil => exact absurd rfl hne
    | cons x xs => exact ⟨x, xs, rfl⟩
  have hxhead := hbody x (List.mem_cons_self x xs)
  have hxdash : x ≠ '-' := numBody_no_dash hbody x (List.mem_cons_self x xs)
  have hxplus : x ≠ '+' := by
    rcases hxhead with hd | rfl | rfl
    · exact digit_ne hd '+' (by decide)
    · decide
    · decide
  have hfilterN : (x :: xs).filter numericChar = x :: xs :=
    List.filter_eq_self.mpr (numBody_numeric hbody)
  have hfilterD : (x :: xs).filter (fun c => c ≠ '-') = x :: xs :=
    filter_ne_self (numBody_no_dash hbody)
  have hsplitD : splitDash sgn (x :: xs) = (sgn, x :: xs) := by
    rw [splitDash_cons, if_neg hxdash]
  cases sgn
  · cases plus
    · have hclean : sanitizeCleaned (x :: xs) = x :: xs :=
        sanitizeCleaned_eq_self (numBody_plain hbody)
      show sanitizeNumberString (x :: xs) = _
      unfold sanitizeNumberString
      rw [hclean]
      dsimp only
      rw [if_neg (by simp : ¬(x :: xs = [])), splitSign_cons, if_neg hxdash,
        if_neg hxplus]
      dsimp only
      rw [hfilterN, if_neg (by simp : ¬(x :: xs = [])), hsplitD]
      dsimp only
      rw [hfilterD]
    · have hplain : ∀ c ∈ '+' :: x :: xs,
          jsIsSpace c = false ∧ isAposChar c = false := by
        intro c hc
        rcases List.mem_cons.mp hc with rfl | hc
        · exact ⟨by decide, by decide⟩
        · exact numBody_plain hbody c hc
      show sanitizeNumberString ('+' :: x :: xs) = _
      unfold sanitizeNumberString
      rw [sanitizeCleaned_eq_self hplain]
      dsimp only
      rw [if_neg (by simp : ¬('+' :: x :: xs = [])), splitSign_cons,
        if_neg (by decide : ¬('+' = '-')), if_pos rfl]
      dsimp only
      rw [hfilterN, if_neg (by simp : ¬(x :: xs = [])), hsplitD]
      dsimp only
      rw [hfilterD]
  · have hplain : ∀ c ∈ '-' :: x :: xs,
        jsIsSpace c = false ∧ isAposChar c = false := by
      intro c hc
      rcases List.mem_cons.mp hc with rfl | hc
      · exact ⟨by decide, by decide⟩
      · exact numBody_plain hbody c hc
    show sanitizeNumberString ('-' :: x :: xs) = _
    unfold sanitizeNumberString
    rw [sanitizeCleaned_eq_self hplain]
    dsimp only
    rw [if_neg (by simp : ¬('-' :: x :: xs = [])), splitSign_cons, if_pos rfl]
    dsimp only
    rw [hfilterN, if_neg (by simp : ¬(x :: xs = []))]
    have hsplitD' : splitDash true (x :: xs) = (true, x :: xs) := by
      rw [splitDash_cons, if_neg hxdash]
    rw [hsplitD']
    dsimp only
    rw [hfilterD]

lemma parseAmount_eval (sgn plus : Bool) (body : List Char) (q : ℚ)
    (hbody : NumBody body) (hne : body ≠ [])
    (hq : jsStringToNumber (sanitizeCore sgn body) = some q) :
    parseAmountNumber ⟨signPrefix sgn plus ++ body⟩ = q := by
  have hsan : sanitizeCore sgn body ≠ [] := by
    intro h
    rw [h] at hq
    cases hq
  unfold parseAmountNumber
  show (if sanitizeNumberString (signPrefix sgn plus ++ body) = [] then (0 : ℚ)
    else _) = q
  rw [sanitizeNumberString_eval sgn plus body hbody hne, if_neg hsan, hq]

lemma sanitize_nonnumeric (w : List Char)
    (hw : ∀ c ∈ w, jsIsSpace c = false ∧ isAposChar c = false ∧
      numericChar c = false ∧ c ≠ '+') :
    sanitizeNumberString w = [] := by
  unfold sanitizeNumberString
  rw [sanitizeCleaned_eq_self (fun c hc => ⟨(hw c hc).1, (hw c hc).2.1⟩)]
  cases w with
  | nil => rfl
  | cons c rest =>
    have hcdash : c ≠ '-' := by
      intro h
      have := (hw c (List.mem_cons_self c rest)).2.2.1
      rw [h] at this
      exact absurd this (by decide)
    have hcplus : c ≠ '+' := (hw c (List.mem_cons_self c rest)).2.2.2
    have hfilter : (c :: rest).filter numericChar = [] := by
      rw [List.filter_eq_nil]
      intro a ha
      exact (by simp [(hw a ha).2.2.1] : ¬numericChar a = true)
    dsimp only
    rw [if_neg (by simp : ¬(c :: rest = [])), splitSign_cons, if_neg hcdash,
      if_neg hcplus]
    dsimp only
    rw [hfilter, if_pos rfl]

lemma parseAmount_nonnumeric (w : List Char)
    (hw : ∀ c ∈ w, jsIsSpace c = false ∧ isAposChar c = false ∧
      numericChar c = false ∧ c ≠ '+') :
    parseAmountNumber ⟨w⟩ = 0 := by
  unfold parseAmountNumber
  show (if sanitizeNumberString w = [] then (0 : ℚ) else _) = 0
  rw [sanitize_nonnumeric w hw, if_pos rfl]

lemma digitsVal_pad (a : List Char) :
    digitsVal (if a = [] then ['0'] else a) = digitsVal a := by
  cases a with
  | nil =>
    rw [if_pos rfl]
    decide
  | cons x t => rw [if_neg (by simp)]

lemma digitsOnly_pad {a : List Char} (h : DigitsOnly a) :
    DigitsOnly (if a = [] then ['0'] else a) := by
  by_cases hA : a = []
  · rw [if_pos hA]
    intro c hc
    rcases List.mem_cons.mp hc with rfl | hc
    · decide
    · cases hc
  · rw [if_neg hA]
    exact h

lemma count_two_commas (a b cs : List Char) (ha : DigitsOnly a)
    (hb : DigitsOnly b) (hc : DigitsOnly cs) :
    ((a ++ ',' :: b) ++ ',' :: cs).count ',' = 2 := by
  have : (a ++ ',' :: (b ++ ',' :: cs)).count ',' = 2 := by
    rw [List.count_append, List.count_cons_self, List.count_append,
      List.count_cons_self, List.count_eq_zero_of_not_mem (ha.not_mem ',' (by decide)),
      List.count_eq_zero_of_not_mem (hb.not_mem ',' (by decide)),
      List.count_eq_zero_of_not_mem (hc.not_mem ',' (by decide))]
  rw [← this]
  simp

lemma sanitizeCore_comma_comma (neg : Bool) (a b cs : List Char)
    (ha : DigitsOnly a) (hb : DigitsOnly b) (hc : DigitsOnly cs)
    (hL : 1 ≤ cs.length ∧ cs.length ≤ 2) :
    sanitizeCore neg (a ++ ',' :: (b ++ ',' :: cs)) =
      (if neg then ['-'] else []) ++
        ((if a ++ b = [] then ['0'] else a ++ b) ++ '.' :: cs) := by
  have hsplit : a ++ ',' :: (b ++ ',' :: cs) = (a ++ ',' :: b) ++ ',' :: cs := by
    simp
  have hdm : '.' ∉ a ++ ',' :: (b ++ ',' :: cs) := by
    intro hmem
    rcases List.mem_append.mp hmem with h | h
    · exact absurd (ha '.' h) (by decide)
    · rcases List.mem_cons.mp h with h | h
      · cases h
      · rcases List.mem_append.mp h with h | h
        · exact absurd (hb '.' h) (by decide)
        · rcases List.mem_cons.mp h with h | h
          · cases h
          · exact absurd (hc '.' h) (by decide)
  have hcomma_tail : ',' ∈ ',' :: (b ++ ',' :: cs) := List.mem_cons_self _ _
  have hcomma_mem : ',' ∈ a ++ ',' :: (b ++ ',' :: cs) :=
    List.mem_append.mpr (Or.inr hcomma_tail)
  have hlc : lastIdx (a ++ ',' :: (b ++ ',' :: cs)) ',' =
      (a.length : Int) + (b.length : Int) + 1 := by
    rw [lastIdx_append, if_pos hcomma_tail, lastIdx_cons]
    have hdb : lastIdx (b ++ ',' :: cs) ',' = (b.length : Int) := by
      rw [lastIdx_append, if_pos (List.mem_cons_self _ _), lastIdx_cons,
        lastIdx_not_mem (hc.not_mem ',' (by decide))]
      norm_num
    rw [hdb, if_pos (by omega : (b.length : Int) ≥ 0)]
    ring
  have hcast : ((a.length : Int) + (b.length : Int) + 1) =
      (((a ++ ',' :: b).length : ℕ) : Int) := by
    simp
    omega
  have hget : (((a ++ ',' :: b) ++ ',' :: cs).get? (a ++ ',' :: b).length).getD ' ' = ',' := by
    rw [List.get?_append_right (Nat.le_refl _)]
    simp
  have hcne : cs ≠ [] := by
    intro h
    rw [h] at hL
    simp at hL
  unfold sanitizeCore
  rw [contains_true hcomma_mem, contains_false hdm, hlc, lastIdx_not_mem hdm]
  dsimp only
  simp only [Bool.false_eq_true, false_and, and_false, if_false]
  have hmax : (((a.length : Int) + (b.length : Int) + 1) ⊔ (-1 : Int)) =
      (a.length : Int) + (b.length : Int) + 1 := max_eq_left (by omega)
  simp only [hmax]
  rw [if_neg (by omega : ¬((a.length : Int) + (b.length : Int) + 1 = -1))]
  rw [hcast, Int.toNat_natCast]
  conv_lhs => rw [hsplit]
  rw [hget]
  have hcount2 := count_two_commas a b cs ha hb hc
  rw [hcount2]
  have hfrac : ((a ++ ',' :: b) ++ ',' :: cs).length - (a ++ ',' :: b).length - 1 =
      cs.length := by
    simp
    omega
  rw [hfrac]
  rw [if_pos ⟨by omega, by omega, Or.inr rfl⟩]
  rw [take_append_cons (a ++ ',' :: b) ',' cs,
    drop_append_cons (a ++ ',' :: b) ',' cs]
  have hfilterIP : (a ++ ',' :: b).filter isDigitChar = a ++ b := by
    rw [List.filter_append, digits_filter_self ha, List.filter_cons,
      if_neg (by decide : ¬(isDigitChar ',' = true)), digits_filter_self hb]
  rw [hfilterIP, digits_filter_self hc, if_neg hcne, List.append_assoc]

lemma appendThree_ne_nil {a : List Char} (b c : List Char) (ha : a ≠ []) :
    a ++ (b ++ c) ≠ [] := by
  intro h
  exact ha (List.append_eq_nil.mp h).1

/-- C7: the spec additionally takes a negative sign from a parenthesized
amount, but `sanitizeNumberString` never inspects parentheses: the input
`(100)` parses to the positive value 100, not -100. -/
theorem C7_counterexample :
    parseAmountNumber "(100)" = 100 ∧ (0 : ℚ) < parseAmountNumber "(100)" := by
  decide

/-- C7 (amended): amount parsing over sign-prefixed digit-and-separator
bodies. The sign comes from a leading `-` or `+` only (parenthesized
amounts are not negated, see the counterexample). When both `,` and `.`
occur, the rightmost is the decimal separator and the other kind is
dropped, with no length restriction on the tail. A single separator kind
is decimal exactly when the tail has 1-2 digits and the separator is `,`
or occurs once: a lone `,` or `.` with a 1-2 digit tail is decimal, a
repeated `,` with a 1-2 digit tail is still decimal, while a tail outside
1-2 digits or a repeated `.` makes it a dropped thousands separator.
Plain digits parse directly, and a fully non-numeric input yields 0. -/
theorem C7_amended (sgn plus : Bool) (a b cs d e f w : List Char)
    (ha : DigitsOnly a) (hb : DigitsOnly b) (hcs : DigitsOnly cs)
    (hd : DigitsOnly d) (he : DigitsOnly e) (hf : DigitsOnly f)
    (ha_ne : a ≠ []) (hf_ne : f ≠ [])
    (hcs_len : 1 ≤ cs.length ∧ cs.length ≤ 2)
    (he_len : ¬(1 ≤ e.length ∧ e.length ≤ 2))
    (hde : d ++ e ≠ [])
    (hw : ∀ c ∈ w, jsIsSpace c = false ∧ isAposChar c = false ∧
      numericChar c = false ∧ c ≠ '+') :
    parseAmountNumber ⟨signPrefix sgn plus ++ (a ++ '.' :: (b ++ ',' :: f))⟩ =
      signVal sgn (digitsVal (a ++ b) + digitsVal f / 10 ^ f.length) ∧
    parseAmountNumber ⟨signPrefix sgn plus ++ (a ++ ',' :: (b ++ '.' :: f))⟩ =
      signVal sgn (digitsVal (a ++ b) + digitsVal f / 10 ^ f.length) ∧
    parseAmountNumber ⟨signPrefix sgn plus ++ (a ++ ',' :: cs)⟩ =
      signVal sgn (digitsVal a + digitsVal cs / 10 ^ cs.length) ∧
    parseAmountNumber ⟨signPrefix sgn plus ++ (a ++ '.' :: cs)⟩ =
      signVal sgn (digitsVal a + digitsVal cs / 10 ^ cs.length) ∧
    parseAmountNumber ⟨signPrefix sgn plus ++ (d ++ ',' :: e)⟩ =
      signVal sgn (digitsVal (d ++ e)) ∧
    parseAmountNumber ⟨signPrefix sgn plus ++ (d ++ '.' :: e)⟩ =
      signVal sgn (digitsVal (d ++ e)) ∧
    parseAmountNumber ⟨signPrefix sgn plus ++ (a ++ '.' :: (b ++ '.' :: f))⟩ =
      signVal sgn (digitsVal (a ++ (b ++ f))) ∧
    parseAmountNumber ⟨signPrefix sgn plus ++ (a ++ ',' :: (b ++ ',' :: cs))⟩ =
      signVal sgn (digitsVal (a ++ b) + digitsVal cs / 10 ^ cs.length) ∧
    parseAmountNumber ⟨signPrefix sgn plus ++ a⟩ = signVal sgn (digitsVal a) ∧
    parseAmountNumber ⟨w⟩ = 0 := by
  have hcsne : cs ≠ [] := by
    intro h
    rw [h] at hcs_len
    simp at hcs_len
  refine ⟨?_, ?_, ?_, ?_, ?_, ?_, ?_, ?_, ?_, ?_⟩
  · refine parseAmount_eval sgn plus _ _ ?_ (by simp) ?_
    · exact numBody_append (numBody_digits ha) (numBody_cons (Or.inr (Or.inr rfl))
        (numBody_append (numBody_digits hb) (numBody_cons (Or.inr (Or.inl rfl))
          (numBody_digits hf))))
    · rw [sanitizeCore_dot_comma sgn a b f ha hb hf]
      exact jsNum_dec sgn (a ++ b) f (ha.append hb) hf hf_ne
  · refine parseAmount_eval sgn plus _ _ ?_ (by simp) ?_
    · exact numBody_append (numBody_digits ha) (numBody_cons (Or.inr (Or.inl rfl))
        (numBody_append (numBody_digits hb) (numBody_cons (Or.inr (Or.inr rfl))
          (numBody_digits hf))))
    · rw [sanitizeCore_comma_dot sgn a b f ha hb hf]
      exact jsNum_dec sgn (a ++ b) f (ha.append hb) hf hf_ne
  · refine parseAmount_eval sgn plus _ _ ?_ (by simp) ?_
    · exact numBody_append (numBody_digits ha)
        (numBody_cons (Or.inr (Or.inl rfl)) (numBody_digits hcs))
    · rw [sanitizeCore_single sgn a cs ',' ha hcs (Or.inl rfl), if_pos hcs_len]
      have n := jsNum_dec sgn (if a = [] then ['0'] else a) cs
        (digitsOnly_pad ha) hcs hcsne
      rw [digitsVal_pad] at n
      exact n
  · refine parseAmount_eval sgn plus _ _ ?_ (by simp) ?_
    · exact numBody_append (numBody_digits ha)
        (numBody_cons (Or.inr (Or.inr rfl)) (numBody_digits hcs))
    · rw [sanitizeCore_single sgn a cs '.' ha hcs (Or.inr rfl), if_pos hcs_len]
      have n := jsNum_dec sgn (if a = [] then ['0'] else a) cs
        (digitsOnly_pad ha) hcs hcsne
      rw [digitsVal_pad] at n
      exact n
  · refine parseAmount_eval sgn plus _ _ ?_ (by simp) ?_
    · exact numBody_append (numBody_digits hd)
        (numBody_cons (Or.inr (Or.inl rfl)) (numBody_digits he))
    · rw [sanitizeCore_single sgn d e ',' hd he (Or.inl rfl), if_neg he_len]
      exact jsNum_int sgn (d ++ e) (hd.append he) hde
  · refine parseAmount_eval sgn plus _ _ ?_ (by simp) ?_
    · exact numBody_append (numBody_digits hd)
        (numBody_cons (Or.inr (Or.inr rfl)) (numBody_digits he))
    · rw [sanitizeCore_single sgn d e '.' hd he (Or.inr rfl), if_neg he_len]
      exact jsNum_int sgn (d ++ e) (hd.append he) hde
  · refine parseAmount_eval sgn plus _ _ ?_ (by simp) ?_
    · exact numBody_append (numBody_digits ha) (numBody_cons (Or.inr (Or.inr rfl))
        (numBody_append (numBody_digits hb) (numBody_cons (Or.inr (Or.inr rfl))
          (numBody_digits hf))))
    · rw [sanitizeCore_dot_dot sgn a b f ha hb hf]
      exact jsNum_int sgn (a ++ (b ++ f)) (ha.append (hb.append hf))
        (appendThree_ne_nil b f ha_ne)
  · refine parseAmount_eval sgn plus _ _ ?_ (by simp) ?_
    · exact numBody_append (numBody_digits ha) (numBody_cons (Or.inr (Or.inl rfl))
        (numBody_append (numBody_digits hb) (numBody_cons (Or.inr (Or.inl rfl))
          (numBody_digits hcs))))
    · rw [sanitizeCore_comma_comma sgn a b cs ha hb hcs hcs_len]
      have n := jsNum_dec sgn (if a ++ b = [] then ['0'] else a ++ b) cs
        (digitsOnly_pad (ha.append hb)) hcs hcsne
      rw [digitsVal_pad] at n
      exact n
  · exact parseAmount_eval sgn plus a _ (numBody_digits ha) ha_ne
      (by rw [sanitizeCore_digits sgn a ha]; exact jsNum_int sgn a ha ha_ne)
  · exact parseAmount_nonnumeric w hw

theorem C7_amended_witness :
    parseAmountNumber ⟨signPrefix true false ++
        (['1'] ++ '.' :: (['2'] ++ ',' :: ['4', '5', '6']))⟩ =
      signVal true (digitsVal (['1'] ++ ['2']) +
        digitsVal ['4', '5', '6'] / 10 ^ (['4', '5', '6'] : List Char).length) ∧
    parseAmountNumber ⟨signPrefix true false ++
        (['1'] ++ ',' :: (['2'] ++ '.' :: ['4', '5', '6']))⟩ =
      signVal true (digitsVal (['1'] ++ ['2']) +
        digitsVal ['4', '5', '6'] / 10 ^ (['4', '5', '6'] : List Char).length) ∧
    parseAmountNumber ⟨signPrefix true false ++ (['1'] ++ ',' :: ['5'])⟩ =
      signVal true (digitsVal ['1'] +
        digitsVal ['5'] / 10 ^ (['5'] : List Char).length) ∧
    parseAmountNumber ⟨signPrefix true false ++ (['1'] ++ '.' :: ['5'])⟩ =
      signVal true (digitsVal ['1'] +
        digitsVal ['5'] / 10 ^ (['5'] : List Char).length) ∧
    parseAmountNumber ⟨signPrefix true false ++
        (['3'] ++ ',' :: ['0', '0', '0'])⟩ =
      signVal true (digitsVal (['3'] ++ ['0', '0', '0'])) ∧
    parseAmountNumber ⟨signPrefix true false ++
        (['3'] ++ '.' :: ['0', '0', '0'])⟩ =
      signVal true (digitsVal (['3'] ++ ['0', '0', '0'])) ∧
    parseAmountNumber ⟨signPrefix true false ++
        (['1'] ++ '.' :: (['2'] ++ '.' :: ['4', '5', '6']))⟩ =
      signVal true (digitsVal (['1'] ++ (['2'] ++ ['4', '5', '6']))) ∧
    parseAmountNumber ⟨signPrefix true false ++
        (['1'] ++ ',' :: (['2'] ++ ',' :: ['5']))⟩ =
      signVal true (digitsVal (['1'] ++ ['2']) +
        digitsVal ['5'] / 10 ^ (['5'] : List Char).length) ∧
    parseAmountNumber ⟨signPrefix true false ++ ['1']⟩ =
      signVal true (digitsVal ['1']) ∧
    parseAmountNumber ⟨['$']⟩ = 0 :=
  C7_amended true false ['1'] ['2'] ['5'] ['3'] ['0', '0', '0'] ['4', '5', '6']
    ['$'] (by unfold DigitsOnly; decide) (by unfold DigitsOnly; decide)
    (by unfold DigitsOnly; decide) (by unfold DigitsOnly; decide)
    (by unfold DigitsOnly; decide) (by unfold DigitsOnly; decide)
    (by decide) (by decide) (by decide) (by decide) (by decide) (by decide)

end Ikap
